import Mathlib

/- Verification of the job orchestration worker (src/unnamed/part_001, an
   express server) together with the ambient log router
   (src/src/utils/logger.ts).

   Modelling notes.  Each HTTP handler body in part_001 contains no
   asynchronous suspension point between its first statement and its final
   response, so each handler is embedded as one atomic step function on the
   server state.  The then/catch/finally continuations of the external task
   promise run back to back when the promise settles and are embedded as one
   atomic finalization step (the spec calls finalization exactly-once).
   Listener objects (one per open SSE response) are identified by natural
   numbers; since every JavaScript listener object is a fresh identity, a
   well-formed run never reuses a listener number, which the ghost field
   usedLids records.  Delivery effects (listener.send / listener.end) are
   recorded in an event trace. -/

namespace JobApplicator

/-- Job status, from the JobStatus union type in part_001. -/
inductive JobStatus where
  | running
  | completed
  | failed
  | terminated
deriving DecidableEq, Repr

/-- One delivery effect on a listener: res.write of an SSE event, or res.end. -/
inductive Event where
  | send (lid : Nat) (event : String) (data : String)
  | close (lid : Nat)
deriving DecidableEq, Repr

/-- A job record, from the Job type in part_001.  The AbortController is
modelled by its only observable, the aborted flag of its signal; the
listener set is the list of listener identifiers in insertion order. -/
structure Job where
  id : String
  status : JobStatus
  logs : List String
  listeners : List Nat
  aborted : Bool
deriving DecidableEq, Repr

/-- The module level mutable state of part_001: the jobs Map (association
list in insertion order, as a JavaScript Map iterates), the runningJobs Set,
the logSinks Map of logger.ts restricted to its keys (each registered sink is
determined by its job id), the ghost set of listener identifiers ever used,
and the trace of delivery effects. -/
structure ServerState where
  jobs : List (String × Job)
  runningJobs : List String
  sinks : List String
  usedLids : List Nat
  trace : List Event
deriving DecidableEq, Repr

/-- Map.get on an association list. -/
def mapGet (m : List (String × Job)) (k : String) : Option Job :=
  match m with
  | [] => none
  | (k2, v) :: rest => if k2 = k then some v else mapGet rest k

/-- Map.set on an association list: overwrite in place if the key is present
(JavaScript Map keeps the original insertion position), append otherwise. -/
def mapSet (m : List (String × Job)) (k : String) (v : Job) : List (String × Job) :=
  match m with
  | [] => [(k, v)]
  | (k2, v2) :: rest => if k2 = k then (k, v) :: rest else (k2, v2) :: mapSet rest k v

/-- Set.add for string sets (runningJobs, sink keys). -/
def setAdd (s : List String) (x : String) : List String :=
  if x ∈ s then s else s ++ [x]

/-- Set.delete for string sets. -/
def setRemove (s : List String) (x : String) : List String :=
  s.filter (fun y => !(y == x))

/-- Set.add for listener identifier sets. -/
def lidAdd (s : List Nat) (x : Nat) : List Nat :=
  if x ∈ s then s else s ++ [x]

/-- send of one event to every listener of a job, in iteration order. -/
def sendAll (lids : List Nat) (event : String) (data : String) : List Event :=
  lids.map (fun l => Event.send l event data)

/-- pushLog from part_001: append the line to job.logs, then send a log event
to every listener. -/
def pushLog (j : Job) (tr : List Event) (line : String) : Job × List Event :=
  ({ j with logs := j.logs ++ [line] }, tr ++ sendAll j.listeners "log" line)

/-- pushStatus from part_001: send a status event to every listener; when the
status is the terminated literal, each listener is also ended, which removes
it from the set and closes its response. -/
def pushStatus (j : Job) (tr : List Event) (status : String) : Job × List Event :=
  let delivered := j.listeners.flatMap (fun l =>
    if status = "terminated" then [Event.send l "status" status, Event.close l]
    else [Event.send l "status" status])
  (if status = "terminated" then { j with listeners := [] } else j, tr ++ delivered)

/-- Truthiness of the two required credential fields of the start request
body.  The remaining body fields (jobUrl, maxApplications, headless, dryRun)
only configure the external task and are out of the modelled core. -/
structure StartBody where
  email : Bool
  password : Bool
deriving DecidableEq, Repr

/-- Responses of the control plane endpoints of part_001. -/
inductive Resp where
  | accepted (jobId : String)
  | capacityError
  | badRequest
  | notFound
  | conflict (status : JobStatus)
  | endAccepted
  | streamOpened
  | logsPage (lines : List String) (nextOffset : Nat) (status : JobStatus)
deriving DecidableEq, Repr

/-- The POST /jobs/start handler of part_001: reject with 429 when
runningJobs.size has reached maxConcurrentJobs, reject with 400 when a
credential is missing, otherwise create the job record with a fresh id,
register it in jobs and runningJobs, start its log sink, and push the
initial log line. -/
def startJob (max : Nat) (s : ServerState) (newId : String) (body : StartBody) : Resp × ServerState :=
  if max ≤ s.runningJobs.length then (Resp.capacityError, s)
  else if !body.email || !body.password then (Resp.badRequest, s)
  else
    let job : Job :=
      { id := newId, status := JobStatus.running, logs := [], listeners := [], aborted := false }
    let s1 : ServerState :=
      { s with jobs := mapSet s.jobs newId job
               runningJobs := setAdd s.runningJobs newId
               sinks := setAdd s.sinks newId }
    let p := pushLog job s1.trace "Job started."
    (Resp.accepted newId, { s1 with jobs := mapSet s1.jobs newId p.1, trace := p.2 })

/-- Outcome of the external task promise (runBot): resolved, or rejected with
an already stringified error message. -/
inductive Outcome where
  | resolved
  | rejected (msg : String)
deriving DecidableEq, Repr

/-- The terminal status computed in the then and catch continuations of
part_001: aborted always wins; otherwise resolved means completed and
rejected means failed. -/
def finalizeStatus (aborted : Bool) (o : Outcome) : JobStatus :=
  match o with
  | Outcome.resolved => if aborted then JobStatus.terminated else JobStatus.completed
  | Outcome.rejected _ => if aborted then JobStatus.terminated else JobStatus.failed

/-- The log lines pushed by the then branch (resolved) or the catch branch
(rejected) of part_001, in order. -/
def finalLines (o : Outcome) : List String :=
  match o with
  | Outcome.resolved => ["Job terminated successfully."]
  | Outcome.rejected msg => ["Job failed: " ++ msg, "Job terminated successfully."]

/-- The then/catch/finally continuation of part_001 as one atomic
finalization step: set the terminal status from the aborted flag, push the
final log lines, push the terminated status event (which detaches and closes
every listener), stop the log sink and release the running slot. -/
def finalizeJob (s : ServerState) (id : String) (o : Outcome) : ServerState :=
  match mapGet s.jobs id with
  | none => s
  | some j =>
    let j1 : Job := { j with status := finalizeStatus j.aborted o }
    let p :=
      match o with
      | Outcome.resolved => pushLog j1 s.trace "Job terminated successfully."
      | Outcome.rejected msg =>
        let q := pushLog j1 s.trace ("Job failed: " ++ msg)
        pushLog q.1 q.2 "Job terminated successfully."
    let r := pushStatus p.1 p.2 "terminated"
    { s with jobs := mapSet s.jobs id r.1
             trace := r.2
             sinks := setRemove s.sinks id
             runningJobs := setRemove s.runningJobs id }

/-- The GET /jobs/:id/stream handler of part_001: 404 on an unknown id;
otherwise replay the whole log history to the new listener, then add the
listener to the job's set.  The handler runs with no suspension point, so
replay and attachment are one atomic step. -/
def streamAttach (s : ServerState) (id : String) (lid : Nat) : Resp × ServerState :=
  match mapGet s.jobs id with
  | none => (Resp.notFound, s)
  | some j =>
    let tr1 := s.trace ++ j.logs.map (fun line => Event.send lid "log" line)
    let j1 : Job := { j with listeners := lidAdd j.listeners lid }
    (Resp.streamOpened,
      { s with jobs := mapSet s.jobs id j1, trace := tr1, usedLids := lidAdd s.usedLids lid })

/-- The POST /jobs/:id/end handler of part_001: 404 on an unknown id, 409
when the job is not running, otherwise abort the controller, push the
termination log line, and answer 202.  The status field is not written. -/
def endJob (s : ServerState) (id : String) : Resp × ServerState :=
  match mapGet s.jobs id with
  | none => (Resp.notFound, s)
  | some j =>
    if j.status ≠ JobStatus.running then (Resp.conflict j.status, s)
    else
      let j1 : Job := { j with aborted := true }
      let p := pushLog j1 s.trace "Termination requested."
      (Resp.endAccepted, { s with jobs := mapSet s.jobs id p.1, trace := p.2 })

/-- A character matched by the body of the ANSI escape pattern of
logger.ts, namely a decimal digit or a semicolon. -/
def isAnsiBody (c : Char) : Bool :=
  c.isDigit || c = ';'

/-- Scanner for the tail of an ANSI escape: given the characters after ESC
and the opening bracket, consume digits and semicolons up to a final m and
return the remainder; none when the pattern does not match here. -/
def ansiScan : List Char → Option (List Char)
  | [] => none
  | c :: rest =>
    if c = 'm' then some rest
    else if isAnsiBody c then ansiScan rest
    else none

/-- The scan behind stripAnsi, driven by a unit of fuel per consumed
character (every step consumes at least one character, so fuel equal to the
input length always suffices; the fuel only makes the recursion
structural). -/
def stripAnsiGo : Nat → List Char → List Char
  | _, [] => []
  | 0, cs => cs
  | fuel + 1, '\x1b' :: '[' :: rest2 =>
    match ansiScan rest2 with
    | some rest3 => stripAnsiGo fuel rest3
    | none => '\x1b' :: stripAnsiGo fuel ('[' :: rest2)
  | fuel + 1, c :: rest => c :: stripAnsiGo fuel rest

/-- stripAnsi from logger.ts: remove every occurrence of the regular
expression ESC bracket digits-or-semicolons star m. -/
def stripAnsiChars (cs : List Char) : List Char :=
  stripAnsiGo cs.length cs

/-- stripAnsi on strings. -/
def stripAnsi (s : String) : String :=
  String.mk (stripAnsiChars s.data)

/-- String.prototype.split with separator newline: every newline character
separates two (possibly empty) pieces. -/
def splitNl : List Char → List (List Char)
  | [] => [[]]
  | c :: rest =>
    match splitNl rest with
    | [] => if c = '\n' then [[], []] else [[c]]
    | cur :: more => if c = '\n' then [] :: cur :: more else (c :: cur) :: more

/-- The whitespace class of String.prototype.trimEnd (the characters that
actually occur in the log pipeline, plus the common JavaScript ones). -/
def isJsWhitespace (c : Char) : Bool :=
  c = ' ' || c = '\t' || c = '\n' || c = '\r' || c = '\x0b' || c = '\x0c' || c = ' '

/-- String.prototype.trimEnd on a character list. -/
def trimEndChars (cs : List Char) : List Char :=
  (cs.reverse.dropWhile isJsWhitespace).reverse

/-- The line pipeline of emit in logger.ts: strip ANSI sequences, split on
newlines, trim trailing whitespace from each line, drop lines that became
empty.  Returns the message strings handed to the sink, in order. -/
def emitMessages (formatted : String) : List String :=
  (((splitNl (stripAnsiChars formatted.data)).map trimEndChars).filter
    (fun l => !l.isEmpty)).map (fun l => String.mk l)

/-- The entry record handed to a log sink by emit in logger.ts. -/
structure LogEntry where
  level : String
  message : String
  timestamp : String
deriving DecidableEq, Repr

/-- emit from logger.ts, as the list of entries delivered to the sink of the
ambient job: nothing without an ambient job context, nothing when no sink is
registered for that job, otherwise one entry per surviving line, all
carrying the level of the call and one timestamp. -/
def emit (context : Option String) (sinkIds : List String) (level ts formatted : String) :
    List LogEntry :=
  match context with
  | none => []
  | some jobId =>
    if jobId ∈ sinkIds then
      (emitMessages formatted).map (fun m => { level := level, message := m, timestamp := ts })
    else []

/-- The sink registered by startLogSink in part_001: push the entry's
message string (only it) onto the job's buffer and fan it out. -/
def deliverToSink (s : ServerState) (id : String) (e : LogEntry) : ServerState :=
  match mapGet s.jobs id with
  | none => s
  | some j =>
    let p := pushLog j s.trace e.message
    { s with jobs := mapSet s.jobs id p.1, trace := p.2 }

/-- One log call of the external task: emit routes the formatted message
through the ambient context to the registered sink of that job, which
appends and fans out each surviving line in order. -/
def botLog (s : ServerState) (context : Option String) (level ts formatted : String) :
    ServerState :=
  match context with
  | none => s
  | some id =>
    (emit (some id) s.sinks level ts formatted).foldl (fun st e => deliverToSink st id e) s

/-- The decimal digit value accumulator of a parsed digit prefix. -/
def digitsVal (cs : List Char) : Nat :=
  cs.foldl (fun acc c => acc * 10 + (c.toNat - 48)) 0

/-- Number.parseInt with radix 10: skip leading whitespace, read an optional
sign, then the longest prefix of decimal digits; NaN (none) when that prefix
is empty. -/
def jsParseInt (s : String) : Option Int :=
  let cs := s.data.dropWhile isJsWhitespace
  let signed : Int × List Char :=
    match cs with
    | '-' :: r => (-1, r)
    | '+' :: r => (1, r)
    | r => (1, r)
  let digits := signed.2.takeWhile Char.isDigit
  if digits.isEmpty then none
  else some (signed.1 * (digitsVal digits : Int))

/-- The maxConcurrentJobs initializer of part_001: parse the environment
variable, default the raw string to 3 when the variable is absent, and fall
back to 1 when the parse is NaN or the parsed value is below 1. -/
def maxConcurrentJobs (envVar : Option String) : Int :=
  let raw := envVar.getD "3"
  match jsParseInt raw with
  | none => 1
  | some parsed => if parsed < 1 then 1 else parsed

/-- Modelled from the spec: the worker endpoint GET /jobs/:id/logs is absent
from the repository sources (only its caller, the web proxy route
src/web/src/app/api/jobs/[id]/logs/route.ts, which forwards id and offset to
the worker and relays the JSON reply, is present).  Following the spec, the
pull transport returns every buffered line from the offset onward, a
nextOffset equal to the new total line count, and the job's current status;
NotFound on an unknown id. -/
def pollLogs (s : ServerState) (id : String) (offset : Nat) : Resp :=
  match mapGet s.jobs id with
  | none => Resp.notFound
  | some j => Resp.logsPage (j.logs.drop offset) j.logs.length j.status

/-- The operations that touch the modelled state, one per atomic step: the
three handlers, the finalization continuation, and a log call of the
external task (carrying its ambient context). -/
inductive Op where
  | start (id : String) (body : StartBody)
  | finalize (id : String) (o : Outcome)
  | endReq (id : String)
  | attach (id : String) (lid : Nat)
  | log (ctx : Option String) (level ts formatted : String)
deriving DecidableEq, Repr

/-- One atomic step of the worker. -/
def stepOp (max : Nat) (s : ServerState) (op : Op) : ServerState :=
  match op with
  | Op.start id body => (startJob max s id body).2
  | Op.finalize id o => finalizeJob s id o
  | Op.endReq id => (endJob s id).2
  | Op.attach id lid => (streamAttach s id lid).2
  | Op.log ctx level ts formatted => botLog s ctx level ts formatted

/-- A run of the worker over a sequence of atomic steps. -/
def run (max : Nat) (s : ServerState) (ops : List Op) : ServerState :=
  ops.foldl (stepOp max) s

/-- The state at module load of part_001: everything empty. -/
def initState : ServerState :=
  { jobs := [], runningJobs := [], sinks := [], usedLids := [], trace := [] }

/-- Environment facts the JavaScript runtime guarantees for a step: a start
uses a fresh random UUID (randomUUID collisions are excluded), a finalize is
the settling of the one promise of a job that is still running (a promise
settles once), and an attach uses a fresh listener object. -/
def opOk (s : ServerState) (op : Op) : Bool :=
  match op with
  | Op.start id _ => (mapGet s.jobs id).isNone
  | Op.finalize id _ =>
    match mapGet s.jobs id with
    | some j => j.status == JobStatus.running
    | none => false
  | Op.attach _ lid => decide (lid ∉ s.usedLids)
  | _ => true

/-- A well-formed run: every step satisfies the environment facts in the
state where it fires. -/
def wfRun (max : Nat) (s : ServerState) : List Op → Bool
  | [] => true
  | op :: rest => opOk s op && wfRun max (stepOp max s op) rest

/-- The sub-trace of delivery effects that hit one listener. -/
def deliveredTo (lid : Nat) (tr : List Event) : List Event :=
  tr.filter (fun e => match e with
    | Event.send l _ _ => l == lid
    | Event.close l => l == lid)

/-- True when the sequence contains no finalization of the given job. -/
def noFinalizeOf (id : String) (ops : List Op) : Bool :=
  ops.all (fun op => match op with
    | Op.finalize id2 _ => decide (¬(id2 = id))
    | _ => true)

/-- The number of registry records whose status is running. -/
def runningCount (s : ServerState) : Nat :=
  (s.jobs.filter (fun p => p.2.status == JobStatus.running)).length

/-- The registry invariant behind admission control: runningJobs is a
duplicate-free set, registry keys are unique, runningJobs holds exactly the
ids of records in running status, and the set never exceeds the ceiling. -/
def Inv (max : Nat) (s : ServerState) : Prop :=
  s.runningJobs.Nodup ∧
  (s.jobs.map Prod.fst).Nodup ∧
  (∀ id, id ∈ s.runningJobs ↔ ∃ j, mapGet s.jobs id = some j ∧ j.status = JobStatus.running) ∧
  s.runningJobs.length ≤ max

/-- A live subscriber: it sits exactly once in the listener set of its job,
in no other job's listener set, and its identifier is registered as used. -/
def trackedB (s : ServerState) (id : String) (lid : Nat) : Bool :=
  (match mapGet s.jobs id with
   | some j => j.listeners.count lid == 1
   | none => false) &&
  s.jobs.all (fun p => p.1 == id || p.2.listeners.count lid == 0) &&
  s.usedLids.contains lid

/-- A detached subscriber of a finalized job: the job exists and is no
longer running, its sink is gone, the listener identifier sits in no
listener set, and it stays registered as used. -/
def goneB (s : ServerState) (id : String) (lid : Nat) : Bool :=
  (match mapGet s.jobs id with
   | some j => !(j.status == JobStatus.running)
   | none => false) &&
  !(s.sinks.contains id) &&
  s.jobs.all (fun p => p.2.listeners.count lid == 0) &&
  s.usedLids.contains lid

/-- Relation between two states as seen by one live subscriber: the
subscriber stays live, and the deliveries it received are exactly the lines
appended to its job's buffer, in order. -/
def TrackedStep (s s2 : ServerState) (id : String) (lid : Nat) (j : Job) : Prop :=
  ∃ j2 δ, mapGet s2.jobs id = some j2 ∧ trackedB s2 id lid = true ∧
    j2.logs = j.logs ++ δ ∧
    deliveredTo lid s2.trace =
      deliveredTo lid s.trace ++ δ.map (fun line => Event.send lid "log" line)

/- Concrete states used by the closed witness and counterexample theorems. -/

/-- A terminal job record left over from an earlier run. -/
def dupJob : Job :=
  { id := "a", status := JobStatus.completed, logs := ["old line"], listeners := [],
    aborted := false }

/-- A registry already holding dupJob under the id a new start will reuse. -/
def dupState : ServerState :=
  { jobs := [("a", dupJob)], runningJobs := [], sinks := [], usedLids := [], trace := [] }

/-- A running job with a registered sink and one attached listener. -/
def liveJob : Job :=
  { id := "j", status := JobStatus.running, logs := ["Job started."], listeners := [5],
    aborted := false }

/-- A worker holding liveJob. -/
def liveState : ServerState :=
  { jobs := [("j", liveJob)], runningJobs := ["j"], sinks := ["j"], usedLids := [5],
    trace := [] }

/-- A running job with a registered sink, some history, and no listener
yet. -/
def plainJob : Job :=
  { id := "j", status := JobStatus.running, logs := ["Job started.", "hello"], listeners := [],
    aborted := false }

/-- A worker holding plainJob, with a clean trace. -/
def plainState : ServerState :=
  { jobs := [("j", plainJob)], runningJobs := ["j"], sinks := ["j"], usedLids := [],
    trace := [] }

/-- A worker at capacity one: a single running job occupies the only slot. -/
def fullState : ServerState :=
  { jobs := [("b", { id := "b", status := JobStatus.running, logs := [], listeners := [],
                     aborted := false })],
    runningJobs := ["b"], sinks := ["b"], usedLids := [], trace := [] }

/- Association list and set lemmas. -/

theorem mapGet_mapSet_self (m : List (String × Job)) (k : String) (v : Job) :
    mapGet (mapSet m k v) k = some v := by
  induction m with
  | nil => simp [mapGet, mapSet]
  | cons p rest ih =>
    obtain ⟨k2, v2⟩ := p
    by_cases h : k2 = k
    · simp [mapGet, mapSet, h]
    · simp [mapGet, mapSet, h, ih]

theorem mapGet_mapSet_ne (m : List (String × Job)) (k k2 : String) (v : Job)
    (h : k2 ≠ k) : mapGet (mapSet m k v) k2 = mapGet m k2 := by
  have h5 : ¬k = k2 := fun hh => h hh.symm
  induction m with
  | nil => simp [mapGet, mapSet, h5]
  | cons p rest ih =>
    obtain ⟨k3, v3⟩ := p
    by_cases h3 : k3 = k
    · subst h3
      simp [mapGet, mapSet, h5]
    · simp only [mapSet, if_neg h3]
      by_cases h4 : k3 = k2
      · simp [mapGet, h4]
      · simp [mapGet, h4, ih]

theorem mapSet_mapSet (m : List (String × Job)) (k : String) (a b : Job) :
    mapSet (mapSet m k a) k b = mapSet m k b := by
  induction m with
  | nil => simp [mapSet]
  | cons p rest ih =>
    obtain ⟨k2, v2⟩ := p
    by_cases h : k2 = k
    · simp [mapSet, h]
    · simp [mapSet, h, ih]

theorem mapSet_self (m : List (String × Job)) (k : String) (v : Job)
    (h : mapGet m k = some v) : mapSet m k v = m := by
  induction m with
  | nil => simp [mapGet] at h
  | cons p rest ih =>
    obtain ⟨k2, v2⟩ := p
    by_cases h2 : k2 = k
    · subst h2
      simp [mapGet] at h
      simp [mapSet, h]
    · simp [mapGet, h2] at h
      simp [mapSet, h2, ih h]

theorem mapSet_absent (m : List (String × Job)) (k : String) (v : Job)
    (h : mapGet m k = none) : mapSet m k v = m ++ [(k, v)] := by
  induction m with
  | nil => simp [mapSet]
  | cons p rest ih =>
    obtain ⟨k2, v2⟩ := p
    by_cases h2 : k2 = k
    · simp [mapGet, h2] at h
    · simp [mapGet, h2] at h
      simp [mapSet, h2, ih h]

theorem mem_mapSet (m : List (String × Job)) (k : String) (v : Job) (p : String × Job)
    (h : p ∈ mapSet m k v) : p = (k, v) ∨ p ∈ m := by
  induction m with
  | nil => simp [mapSet] at h; simp [h]
  | cons q rest ih =>
    obtain ⟨k2, v2⟩ := q
    by_cases h2 : k2 = k
    · simp [mapSet, h2] at h
      rcases h with h | h
      · exact Or.inl (by simp [h])
      · exact Or.inr (by simp [h])
    · simp [mapSet, h2] at h
      rcases h with h | h
      · exact Or.inr (by simp [h])
      · rcases ih h with h3 | h3
        · exact Or.inl h3
        · exact Or.inr (by simp [h3])

theorem mapGet_mem (m : List (String × Job)) (k : String) (v : Job)
    (h : mapGet m k = some v) : (k, v) ∈ m := by
  induction m with
  | nil => simp [mapGet] at h
  | cons p rest ih =>
    obtain ⟨k2, v2⟩ := p
    by_cases h2 : k2 = k
    · subst h2
      simp [mapGet] at h
      simp [h]
    · simp [mapGet, h2] at h
      simp [ih h]

theorem keys_mapSet_present (m : List (String × Job)) (k : String) (v v0 : Job)
    (h : mapGet m k = some v0) : (mapSet m k v).map Prod.fst = m.map Prod.fst := by
  induction m with
  | nil => simp [mapGet] at h
  | cons p rest ih =>
    obtain ⟨k2, v2⟩ := p
    by_cases h2 : k2 = k
    · subst h2
      simp [mapSet]
    · simp [mapGet, h2] at h
      simp [mapSet, h2, ih h]

theorem keys_mapSet_absent (m : List (String × Job)) (k : String) (v : Job)
    (h : mapGet m k = none) : (mapSet m k v).map Prod.fst = m.map Prod.fst ++ [k] := by
  induction m with
  | nil => simp [mapSet]
  | cons p rest ih =>
    obtain ⟨k2, v2⟩ := p
    by_cases h2 : k2 = k
    · simp [mapGet, h2] at h
    · simp [mapGet, h2] at h
      simp [mapSet, h2, ih h]

theorem mapGet_eq_none (m : List (String × Job)) (k : String) :
    mapGet m k = none ↔ k ∉ m.map Prod.fst := by
  induction m with
  | nil => simp [mapGet]
  | cons p rest ih =>
    obtain ⟨k2, v2⟩ := p
    by_cases h2 : k2 = k
    · subst h2
      simp [mapGet]
    · have h5 : ¬k = k2 := fun hh => h2 hh.symm
      simp [mapGet, h2, ih, h5]

theorem mapGet_of_mem_nodup (m : List (String × Job)) (k : String) (v : Job)
    (hn : (m.map Prod.fst).Nodup) (h : (k, v) ∈ m) : mapGet m k = some v := by
  induction m with
  | nil => simp at h
  | cons p rest ih =>
    obtain ⟨k2, v2⟩ := p
    simp only [List.map_cons, List.nodup_cons] at hn
    rcases List.mem_cons.mp h with h3 | h3
    · have hk : k = k2 := congrArg Prod.fst h3
      have hv : v = v2 := congrArg Prod.snd h3
      subst hk
      subst hv
      simp [mapGet]
    · by_cases h4 : k2 = k
      · subst h4
        exact absurd (List.mem_map_of_mem Prod.fst h3) hn.1
      · simp [mapGet, h4, ih hn.2 h3]

theorem mem_setAdd (s : List String) (x y : String) :
    y ∈ setAdd s x ↔ y ∈ s ∨ y = x := by
  unfold setAdd
  by_cases h : x ∈ s
  · simp only [if_pos h]
    constructor
    · exact Or.inl
    · rintro (h2 | h2)
      · exact h2
      · exact h2 ▸ h
  · simp [if_neg h]

theorem setAdd_nodup (s : List String) (x : String) (h : s.Nodup) :
    (setAdd s x).Nodup := by
  unfold setAdd
  by_cases h2 : x ∈ s
  · simpa [h2] using h
  · simp [h2, List.nodup_append, h]

theorem length_setAdd (s : List String) (x : String) :
    (setAdd s x).length = s.length ∨ (setAdd s x).length = s.length + 1 := by
  unfold setAdd
  by_cases h : x ∈ s
  · simp [h]
  · simp [h]

theorem length_setAdd_fresh (s : List String) (x : String) (h : x ∉ s) :
    (setAdd s x).length = s.length + 1 := by
  simp [setAdd, h]

theorem mem_setRemove (s : List String) (x y : String) :
    y ∈ setRemove s x ↔ y ∈ s ∧ y ≠ x := by
  unfold setRemove
  simp [List.mem_filter]

theorem setRemove_nodup (s : List String) (x : String) (h : s.Nodup) :
    (setRemove s x).Nodup := List.Nodup.filter _ h

theorem length_setRemove_le (s : List String) (x : String) :
    (setRemove s x).length ≤ s.length := List.length_filter_le _ _

theorem not_mem_setRemove_self (s : List String) (x : String) :
    x ∉ setRemove s x := by
  intro h
  exact absurd rfl ((mem_setRemove s x x).mp h).2

theorem mem_lidAdd (s : List Nat) (x y : Nat) :
    y ∈ lidAdd s x ↔ y ∈ s ∨ y = x := by
  unfold lidAdd
  by_cases h : x ∈ s
  · simp only [if_pos h]
    constructor
    · exact Or.inl
    · rintro (h2 | h2)
      · exact h2
      · exact h2 ▸ h
  · simp [if_neg h]

theorem count_lidAdd_ne (s : List Nat) (x y : Nat) (h : y ≠ x) :
    (lidAdd s x).count y = s.count y := by
  unfold lidAdd
  by_cases h2 : x ∈ s
  · simp [h2]
  · simp [h2, List.count_append, List.count_singleton, h]

/- Delivery trace lemmas. -/

theorem deliveredTo_append (lid : Nat) (t1 t2 : List Event) :
    deliveredTo lid (t1 ++ t2) = deliveredTo lid t1 ++ deliveredTo lid t2 := by
  simp [deliveredTo]

theorem deliveredTo_sendAll_zero (lid : Nat) (L : List Nat) (ev d : String)
    (h : L.count lid = 0) : deliveredTo lid (sendAll L ev d) = [] := by
  have hn : lid ∉ L := List.count_eq_zero.mp h
  unfold deliveredTo sendAll
  rw [List.filter_eq_nil_iff]
  intro e he
  obtain ⟨l, hl, rfl⟩ := List.mem_map.mp he
  have hne : ¬(l = lid) := fun hh => hn (hh ▸ hl)
  simp [hne]

theorem deliveredTo_sendAll_one (lid : Nat) (L : List Nat) (ev d : String)
    (h : L.count lid = 1) : deliveredTo lid (sendAll L ev d) = [Event.send lid ev d] := by
  induction L with
  | nil => simp [List.count_nil] at h
  | cons a rest ih =>
    simp only [List.count_cons] at h
    by_cases ha : a = lid
    · subst ha
      have hr : rest.count a = 0 := by simp at h; omega
      rw [show sendAll (a :: rest) ev d = [Event.send a ev d] ++ sendAll rest ev d from rfl]
      rw [deliveredTo_append, deliveredTo_sendAll_zero a rest ev d hr]
      simp [deliveredTo]
    · have hr : rest.count lid = 1 := by simp [ha] at h; omega
      rw [show sendAll (a :: rest) ev d = [Event.send a ev d] ++ sendAll rest ev d from rfl]
      rw [deliveredTo_append, ih hr]
      simp [deliveredTo, ha]

theorem deliveredTo_statusClose_zero (lid : Nat) (L : List Nat) (st : String)
    (h : L.count lid = 0) :
    deliveredTo lid (L.flatMap (fun l => [Event.send l "status" st, Event.close l])) = [] := by
  have hn : lid ∉ L := List.count_eq_zero.mp h
  unfold deliveredTo
  rw [List.filter_eq_nil_iff]
  intro e he
  obtain ⟨l, hl, hee⟩ := List.mem_flatMap.mp he
  have hne : ¬(l = lid) := fun hh => hn (hh ▸ hl)
  rcases List.mem_cons.mp hee with h3 | h3
  · subst h3
    simp [hne]
  · simp only [List.mem_singleton] at h3
    subst h3
    simp [hne]

theorem deliveredTo_statusClose_one (lid : Nat) (L : List Nat) (st : String)
    (h : L.count lid = 1) :
    deliveredTo lid (L.flatMap (fun l => [Event.send l "status" st, Event.close l])) =
      [Event.send lid "status" st, Event.close lid] := by
  induction L with
  | nil => simp [List.count_nil] at h
  | cons a rest ih =>
    simp only [List.count_cons] at h
    simp only [List.flatMap_cons]
    by_cases ha : a = lid
    · subst ha
      have hr : rest.count a = 0 := by simp at h; omega
      rw [deliveredTo_append, deliveredTo_statusClose_zero a rest st hr]
      simp [deliveredTo]
    · have hr : rest.count lid = 1 := by simp [ha] at h; omega
      rw [deliveredTo_append, ih hr]
      simp [deliveredTo, ha]

theorem deliveredTo_replay_ne (lid lid2 : Nat) (h : ¬(lid2 = lid)) (logs : List String) :
    deliveredTo lid (logs.map (fun line => Event.send lid2 "log" line)) = [] := by
  unfold deliveredTo
  rw [List.filter_eq_nil_iff]
  intro e he
  obtain ⟨line, hline, rfl⟩ := List.mem_map.mp he
  simp [h]

theorem deliveredTo_logFlat_zero (lid : Nat) (L : List Nat) (msgs : List String)
    (h : L.count lid = 0) :
    deliveredTo lid (msgs.flatMap (fun m => sendAll L "log" m)) = [] := by
  induction msgs with
  | nil => simp [deliveredTo]
  | cons m ms ih =>
    simp only [List.flatMap_cons]
    rw [deliveredTo_append]
    simp [deliveredTo_sendAll_zero lid L "log" m h, ih]

theorem deliveredTo_logFlat_one (lid : Nat) (L : List Nat) (msgs : List String)
    (h : L.count lid = 1) :
    deliveredTo lid (msgs.flatMap (fun m => sendAll L "log" m)) =
      msgs.map (fun m => Event.send lid "log" m) := by
  induction msgs with
  | nil => simp [deliveredTo]
  | cons m ms ih =>
    simp only [List.flatMap_cons]
    rw [deliveredTo_append]
    simp [deliveredTo_sendAll_one lid L "log" m h, ih]

/- The registered sink, folded over the messages one emit call produces. -/

theorem sinkFold_spec (msgs : List String) (level ts id : String) :
    ∀ (s : ServerState) (j : Job), mapGet s.jobs id = some j →
    msgs.foldl (fun st m => deliverToSink st id { level := level, message := m, timestamp := ts }) s =
      { s with jobs := mapSet s.jobs id { j with logs := j.logs ++ msgs },
               trace := s.trace ++ msgs.flatMap (fun m => sendAll j.listeners "log" m) } := by
  induction msgs with
  | nil =>
    intro s j hj
    simp [mapSet_self _ _ _ hj]
  | cons m ms ih =>
    intro s j hj
    simp only [List.foldl_cons]
    rw [show deliverToSink s id { level := level, message := m, timestamp := ts } =
      { s with jobs := mapSet s.jobs id { j with logs := j.logs ++ [m] },
               trace := s.trace ++ sendAll j.listeners "log" m } by
      simp [deliverToSink, hj, pushLog]]
    rw [ih _ { j with logs := j.logs ++ [m] } (by simp [mapGet_mapSet_self])]
    simp [mapSet_mapSet, List.append_assoc]

theorem sinkFold_stale (msgs : List String) (level ts id : String) :
    ∀ s : ServerState, mapGet s.jobs id = none →
    msgs.foldl (fun st m => deliverToSink st id { level := level, message := m, timestamp := ts }) s = s := by
  induction msgs with
  | nil => intro s _; rfl
  | cons m ms ih =>
    intro s hj
    simp only [List.foldl_cons]
    rw [show deliverToSink s id { level := level, message := m, timestamp := ts } = s by
      simp [deliverToSink, hj]]
    exact ih s hj

theorem botLog_spec (s : ServerState) (id : String) (j : Job) (level ts formatted : String)
    (hj : mapGet s.jobs id = some j) (hs : id ∈ s.sinks) :
    botLog s (some id) level ts formatted =
      { s with jobs := mapSet s.jobs id { j with logs := j.logs ++ emitMessages formatted },
               trace := s.trace ++ (emitMessages formatted).flatMap (fun m => sendAll j.listeners "log" m) } := by
  unfold botLog emit
  simp only [hs, if_pos, List.foldl_map]
  exact sinkFold_spec (emitMessages formatted) level ts id s j hj

theorem botLog_stale (s : ServerState) (id : String) (level ts formatted : String)
    (hj : mapGet s.jobs id = none) : botLog s (some id) level ts formatted = s := by
  unfold botLog emit
  by_cases hs : id ∈ s.sinks
  · simp only [hs, if_pos, List.foldl_map]
    exact sinkFold_stale (emitMessages formatted) level ts id s hj
  · simp [hs]

theorem botLog_noSink (s : ServerState) (id : String) (level ts formatted : String)
    (hs : id ∉ s.sinks) : botLog s (some id) level ts formatted = s := by
  unfold botLog emit
  simp [hs]

theorem botLog_noContext (s : ServerState) (level ts formatted : String) :
    botLog s none level ts formatted = s := rfl

/- Finalization. -/

theorem finalizeJob_spec (s : ServerState) (id : String) (j : Job) (o : Outcome)
    (hj : mapGet s.jobs id = some j) :
    finalizeJob s id o =
      { s with jobs := mapSet s.jobs id
                 { j with status := finalizeStatus j.aborted o,
                          logs := j.logs ++ finalLines o, listeners := [] },
               trace := s.trace ++
                 (finalLines o).flatMap (fun line => sendAll j.listeners "log" line) ++
                 j.listeners.flatMap (fun l => [Event.send l "status" "terminated", Event.close l]),
               sinks := setRemove s.sinks id,
               runningJobs := setRemove s.runningJobs id } := by
  unfold finalizeJob
  rw [hj]
  cases o with
  | resolved => simp [pushLog, pushStatus, finalLines, List.append_assoc]
  | rejected msg => simp [pushLog, pushStatus, finalLines, List.append_assoc]

theorem finalizeStatus_ne_running (aborted : Bool) (o : Outcome) :
    finalizeStatus aborted o ≠ JobStatus.running := by
  cases o <;> cases aborted <;> simp [finalizeStatus]

/-- C2: when the task promise resolves with the cancellation token never
set, the final status is completed; when it settles after the token was set,
the final status is terminated; when it rejects with the token never set,
the final status is failed and the failure message is appended to the log. -/
theorem c2_final_status (s : ServerState) (id : String) (j : Job) (o : Outcome)
    (hj : mapGet s.jobs id = some j) :
    ∃ j2, mapGet (finalizeJob s id o).jobs id = some j2 ∧
      (o = Outcome.resolved → j.aborted = false → j2.status = JobStatus.completed) ∧
      (j.aborted = true → j2.status = JobStatus.terminated) ∧
      (∀ msg, o = Outcome.rejected msg → j.aborted = false →
        j2.status = JobStatus.failed ∧
        j2.logs = j.logs ++ ["Job failed: " ++ msg, "Job terminated successfully."]) := by
  rw [finalizeJob_spec s id j o hj]
  refine ⟨_, mapGet_mapSet_self .., ?_, ?_, ?_⟩
  · intro ho hab
    subst ho
    simp [finalizeStatus, hab]
  · intro hab
    cases o <;> simp [finalizeStatus, hab]
  · intro msg ho hab
    subst ho
    simp [finalizeStatus, finalLines, hab]

/-- C2 witness: a rejected task on a never-aborted job finalizes as failed
with the failure message logged. -/
theorem c2_final_status_witness :
    ∃ j2, mapGet (finalizeJob liveState "j" (Outcome.rejected "boom")).jobs "j" = some j2 ∧
      (Outcome.rejected "boom" = Outcome.resolved → liveJob.aborted = false →
        j2.status = JobStatus.completed) ∧
      (liveJob.aborted = true → j2.status = JobStatus.terminated) ∧
      (∀ msg, Outcome.rejected "boom" = Outcome.rejected msg → liveJob.aborted = false →
        j2.status = JobStatus.failed ∧
        j2.logs = liveJob.logs ++ ["Job failed: " ++ msg, "Job terminated successfully."]) :=
  c2_final_status liveState "j" liveJob (Outcome.rejected "boom") (by decide)

/-- C10: whatever the outcome and whatever the aborted flag, finalization
sends every attached listener one status event whose payload is the literal
terminated string, then closes it, and empties the listener set: the
delivered payload never distinguishes the three terminal outcomes. -/
theorem c10_terminal_event (s : ServerState) (id : String) (j : Job) (o : Outcome)
    (hj : mapGet s.jobs id = some j) :
    mapGet (finalizeJob s id o).jobs id =
      some { j with status := finalizeStatus j.aborted o, logs := j.logs ++ finalLines o,
                    listeners := [] } ∧
    (finalizeJob s id o).trace =
      s.trace ++ (finalLines o).flatMap (fun line => sendAll j.listeners "log" line) ++
        j.listeners.flatMap (fun l => [Event.send l "status" "terminated", Event.close l]) := by
  rw [finalizeJob_spec s id j o hj]
  exact ⟨mapGet_mapSet_self .., rfl⟩

/-- C10 witness: finalizing the live job delivers the literal terminated
status to its listener and empties the listener set. -/
theorem c10_terminal_event_witness :
    mapGet (finalizeJob liveState "j" Outcome.resolved).jobs "j" =
      some { liveJob with status := finalizeStatus liveJob.aborted Outcome.resolved,
                          logs := liveJob.logs ++ finalLines Outcome.resolved,
                          listeners := [] } ∧
    (finalizeJob liveState "j" Outcome.resolved).trace =
      liveState.trace ++
        (finalLines Outcome.resolved).flatMap (fun line => sendAll liveJob.listeners "log" line) ++
        liveJob.listeners.flatMap
          (fun l => [Event.send l "status" "terminated", Event.close l]) :=
  c10_terminal_event liveState "j" liveJob Outcome.resolved (by decide)

theorem endJob_running_state (s : ServerState) (id : String) (j : Job)
    (hj : mapGet s.jobs id = some j) (hst : j.status = JobStatus.running) :
    endJob s id =
      (Resp.endAccepted,
        { s with
            jobs := mapSet s.jobs id
                      { j with aborted := true,
                               logs := j.logs ++ ["Termination requested."] },
            trace := s.trace ++ sendAll j.listeners "log" "Termination requested." }) := by
  simp [endJob, hj, hst, pushLog]

/-- C5: the end endpoint answers NotFound on an unknown id, Conflict on a
job that is not running, and otherwise answers Accepted after setting the
cancellation token and appending the termination request log line; it never
writes the status field. -/
theorem c5_end_endpoint (s : ServerState) (id : String) :
    (mapGet s.jobs id = none → endJob s id = (Resp.notFound, s)) ∧
    (∀ j, mapGet s.jobs id = some j → j.status ≠ JobStatus.running →
      endJob s id = (Resp.conflict j.status, s)) ∧
    (∀ j, mapGet s.jobs id = some j → j.status = JobStatus.running →
      (endJob s id).1 = Resp.endAccepted ∧
      (endJob s id).2 =
        { s with
            jobs := mapSet s.jobs id
                      { j with aborted := true,
                               logs := j.logs ++ ["Termination requested."] },
            trace := s.trace ++ sendAll j.listeners "log" "Termination requested." } ∧
      (∀ j2, mapGet (endJob s id).2.jobs id = some j2 → j2.status = j.status)) := by
  refine ⟨?_, ?_, ?_⟩
  · intro h
    simp [endJob, h]
  · intro j hj hst
    simp [endJob, hj, hst]
  · intro j hj hst
    have he := endJob_running_state s id j hj hst
    refine ⟨by rw [he], by rw [he], ?_⟩
    intro j2 hj2
    rw [he] at hj2
    simp only [mapGet_mapSet_self] at hj2
    cases hj2
    simp [hst]

/-- C5 witness: ending the running live job answers Accepted, sets the
token, appends the log line, fans it out, and leaves the status running. -/
theorem c5_end_endpoint_witness :
    (endJob liveState "j").1 = Resp.endAccepted ∧
    (endJob liveState "j").2 =
      { liveState with
          jobs := mapSet liveState.jobs "j"
                    { liveJob with aborted := true,
                                   logs := liveJob.logs ++ ["Termination requested."] },
          trace := liveState.trace ++
                     sendAll liveJob.listeners "log" "Termination requested." } ∧
    (∀ j2, mapGet (endJob liveState "j").2.jobs "j" = some j2 →
      j2.status = liveJob.status) :=
  (c5_end_endpoint liveState "j").2.2 liveJob (by decide) (by decide)

/-- C8 counterexample: a start request whose generated id already names a
registry record does not fail with any duplicate id error: it answers
Accepted and silently replaces the existing record. -/
theorem c8_counterexample :
    (startJob 3 dupState "a" { email := true, password := true }).1 = Resp.accepted "a" ∧
    mapGet (startJob 3 dupState "a" { email := true, password := true }).2.jobs "a" =
      some { id := "a", status := JobStatus.running, logs := ["Job started."], listeners := [],
             aborted := false } ∧
    mapGet dupState.jobs "a" = some dupJob := by decide

/-- C8 amended: a start request whose generated job id is already present in
the registry performs no duplicate check at all; given capacity and
credentials it succeeds, and the Map.set call replaces the existing record
with the fresh running job. -/
theorem c8_duplicate_start_overwrites (max : Nat) (s : ServerState) (id : String)
    (body : StartBody) (jold : Job)
    (hdup : mapGet s.jobs id = some jold) (hcap : s.runningJobs.length < max)
    (he : body.email = true) (hp : body.password = true) :
    (startJob max s id body).1 = Resp.accepted id ∧
    mapGet (startJob max s id body).2.jobs id =
      some { id := id, status := JobStatus.running, logs := ["Job started."],
             listeners := [], aborted := false } := by
  unfold startJob
  rw [if_neg (by omega)]
  simp only [he, hp, Bool.not_true, Bool.or_self, Bool.false_eq_true, if_false]
  constructor
  · trivial
  · simp [pushLog, mapSet_mapSet, mapGet_mapSet_self]

/-- C8 amended witness: the concrete duplicate start on dupState. -/
theorem c8_duplicate_start_overwrites_witness :
    (startJob 3 dupState "a" { email := true, password := true }).1 = Resp.accepted "a" ∧
    mapGet (startJob 3 dupState "a" { email := true, password := true }).2.jobs "a" =
      some { id := "a", status := JobStatus.running, logs := ["Job started."],
             listeners := [], aborted := false } :=
  c8_duplicate_start_overwrites 3 dupState "a" { email := true, password := true } dupJob
    (by decide) (by decide) rfl rfl

/-- C9: however the MAX_CONCURRENT_JOBS variable is set, the admission
ceiling is an integer of at least 1; an absent variable yields 3; an
unparsable or sub-1 value yields 1. -/
theorem c9_ceiling (envVar : Option String) :
    1 ≤ maxConcurrentJobs envVar ∧
    maxConcurrentJobs none = 3 ∧
    (∀ raw, envVar = some raw →
      (jsParseInt raw = none ∨ ∃ p, jsParseInt raw = some p ∧ p < 1) →
      maxConcurrentJobs envVar = 1) := by
  refine ⟨?_, by decide, ?_⟩
  · unfold maxConcurrentJobs
    cases h : jsParseInt (envVar.getD "3") with
    | none => simp [h]
    | some p =>
      simp only [h]
      split <;> omega
  · rintro raw rfl h
    unfold maxConcurrentJobs
    rcases h with h | ⟨p, hp, hlt⟩
    · simp [Option.getD, h]
    · simp [Option.getD, hp, hlt]

/-- C9 witness: three concrete environments. -/
theorem c9_ceiling_witness :
    1 ≤ maxConcurrentJobs (some "7") ∧
    maxConcurrentJobs none = 3 ∧
    maxConcurrentJobs (some "-2") = 1 ∧
    maxConcurrentJobs (some "nope") = 1 :=
  ⟨(c9_ceiling (some "7")).1, (c9_ceiling none).2.1,
    (c9_ceiling (some "-2")).2.2 "-2" rfl (Or.inr ⟨-2, by decide, by decide⟩),
    (c9_ceiling (some "nope")).2.2 "nope" rfl (Or.inl (by decide))⟩

/-- C4: polling an unknown id yields NotFound; polling a known job with a
valid offset returns exactly the buffered lines from that offset, a
nextOffset equal to the total line count, and the current status; a client
resuming from the returned nextOffset sees exactly the lines appended since,
so the concatenation of successive pages reconstructs the buffer with no
duplication and no gap. -/
theorem c4_poll_cursor (s : ServerState) (id : String) (offset : Nat) :
    (mapGet s.jobs id = none → pollLogs s id offset = Resp.notFound) ∧
    (∀ j, mapGet s.jobs id = some j → offset ≤ j.logs.length →
      pollLogs s id offset = Resp.logsPage (j.logs.drop offset) j.logs.length j.status ∧
      (∀ s2 j2 δ, mapGet s2.jobs id = some j2 → j2.logs = j.logs ++ δ →
        pollLogs s2 id j.logs.length = Resp.logsPage δ j2.logs.length j2.status ∧
        j.logs.drop offset ++ δ = j2.logs.drop offset)) := by
  refine ⟨?_, ?_⟩
  · intro h
    simp [pollLogs, h]
  · intro j hj hoff
    refine ⟨by simp [pollLogs, hj], ?_⟩
    intro s2 j2 δ hj2 hext
    refine ⟨?_, ?_⟩
    · simp [pollLogs, hj2, hext, List.drop_left]
    · rw [hext, List.drop_append_of_le_length hoff]

/-- C4 witness: concrete polls against the live job. -/
theorem c4_poll_cursor_witness :
    pollLogs liveState "j" 0 =
      Resp.logsPage (liveJob.logs.drop 0) liveJob.logs.length liveJob.status ∧
    (∀ s2 j2 δ, mapGet s2.jobs "j" = some j2 → j2.logs = liveJob.logs ++ δ →
      pollLogs s2 "j" liveJob.logs.length = Resp.logsPage δ j2.logs.length j2.status ∧
      liveJob.logs.drop 0 ++ δ = j2.logs.drop 0) :=
  (c4_poll_cursor liveState "j" 0).2 liveJob (by decide) (by decide)

/-- C7 counterexample: the entry handed to the sink carries level and
timestamp, but the job's buffer does not: two log calls that differ only in
level and timestamp yield identical server states, and the stored buffer
cell is the bare message string, so no level-message-timestamp entry is
appended to the buffer. -/
theorem c7_counterexample :
    botLog liveState (some "j") "info" "10:00:00" "hello" =
      botLog liveState (some "j") "error" "10:00:01" "hello" ∧
    (botLog liveState (some "j") "info" "10:00:00" "hello").jobs =
      [("j", { liveJob with logs := liveJob.logs ++ ["hello"] })] ∧
    emit (some "j") liveState.sinks "info" "10:00:00" "hello" =
      [{ level := "info", message := "hello", timestamp := "10:00:00" }] := by
  refine ⟨by decide, ?_, by decide⟩
  decide

/-- C7 amended: with an active job binding and a registered sink, a log call
strips ANSI sequences, splits on line breaks, trims each line's trailing
whitespace, drops emptied lines, hands each surviving line to the sink as a
level-message-timestamp entry, and the sink appends only the message string
to the job's buffer while delivering it synchronously to every attached
listener; with no active binding the call stores and streams nothing and
does not fail. -/
theorem c7_log_pipeline (s : ServerState) (id : String) (j : Job)
    (level ts formatted : String)
    (hj : mapGet s.jobs id = some j) (hs : id ∈ s.sinks) :
    emit (some id) s.sinks level ts formatted =
      (emitMessages formatted).map
        (fun m => { level := level, message := m, timestamp := ts }) ∧
    (botLog s (some id) level ts formatted).jobs =
      mapSet s.jobs id { j with logs := j.logs ++ emitMessages formatted } ∧
    (botLog s (some id) level ts formatted).trace =
      s.trace ++ (emitMessages formatted).flatMap (fun m => sendAll j.listeners "log" m) ∧
    (∀ level2 ts2 formatted2, botLog s none level2 ts2 formatted2 = s) := by
  refine ⟨by simp [emit, hs], ?_, ?_, fun _ _ _ => rfl⟩
  · rw [botLog_spec s id j level ts formatted hj hs]
  · rw [botLog_spec s id j level ts formatted hj hs]

/-- C7 amended witness: a concrete two-line colored message on the live
job. -/
theorem c7_log_pipeline_witness :
    emit (some "j") liveState.sinks "info" "t1" "one\ntwo  \n" =
      (emitMessages "one\ntwo  \n").map
        (fun m => { level := "info", message := m, timestamp := "t1" }) ∧
    (botLog liveState (some "j") "info" "t1" "one\ntwo  \n").jobs =
      mapSet liveState.jobs "j"
        { liveJob with logs := liveJob.logs ++ emitMessages "one\ntwo  \n" } ∧
    (botLog liveState (some "j") "info" "t1" "one\ntwo  \n").trace =
      liveState.trace ++
        (emitMessages "one\ntwo  \n").flatMap
          (fun m => sendAll liveJob.listeners "log" m) ∧
    (∀ level2 ts2 formatted2, botLog liveState none level2 ts2 formatted2 = liveState) :=
  c7_log_pipeline liveState "j" liveJob "info" "t1" "one\ntwo  \n" (by decide) (by decide)

/- Admission control. -/

theorem startJob_atCapacity (max : Nat) (s : ServerState) (id : String) (body : StartBody)
    (hcap : max ≤ s.runningJobs.length) :
    startJob max s id body = (Resp.capacityError, s) := by
  unfold startJob
  rw [if_pos hcap]

theorem startJob_success (max : Nat) (s : ServerState) (id : String) (body : StartBody)
    (hcap : s.runningJobs.length < max) (he : body.email = true) (hp : body.password = true) :
    startJob max s id body =
      (Resp.accepted id,
        { s with
            jobs := mapSet s.jobs id
                      { id := id, status := JobStatus.running, logs := ["Job started."],
                        listeners := [], aborted := false },
            runningJobs := setAdd s.runningJobs id,
            sinks := setAdd s.sinks id }) := by
  unfold startJob
  rw [if_neg (by omega)]
  simp [he, hp, pushLog, mapSet_mapSet, sendAll]

theorem startJob_success_state (max : Nat) (s : ServerState) (id : String) (body : StartBody)
    (hcap : s.runningJobs.length < max) (he : body.email = true) (hp : body.password = true) :
    (startJob max s id body).2 =
      { s with
          jobs := mapSet s.jobs id
                    { id := id, status := JobStatus.running, logs := ["Job started."],
                      listeners := [], aborted := false },
          runningJobs := setAdd s.runningJobs id,
          sinks := setAdd s.sinks id } := by
  rw [startJob_success max s id body hcap he hp]

theorem nodup_subset_length (l r : List String) (hn : l.Nodup) (hs : l ⊆ r) :
    l.length ≤ r.length := by
  have h1 : l.toFinset.card = l.length := List.toFinset_card_of_nodup hn
  have h2 : l.toFinset ⊆ r.toFinset := by
    intro a ha
    simp only [List.mem_toFinset] at ha ⊢
    exact hs ha
  have h3 : r.toFinset.card ≤ r.length := List.toFinset_card_le r
  have h4 := Finset.card_le_card h2
  omega

theorem inv_same_running (max : Nat) (s s2 : ServerState) (id : String) (j j2 : Job)
    (h : Inv max s) (hj : mapGet s.jobs id = some j) (hst : j2.status = j.status)
    (hjobs : s2.jobs = mapSet s.jobs id j2) (hrun : s2.runningJobs = s.runningJobs) :
    Inv max s2 := by
  obtain ⟨hnr, hnk, hiff, hlen⟩ := h
  refine ⟨hrun ▸ hnr, ?_, ?_, hrun ▸ hlen⟩
  · rw [hjobs, keys_mapSet_present s.jobs id j2 j hj]
    exact hnk
  · intro id2
    rw [hrun, hjobs]
    by_cases hid : id2 = id
    · subst hid
      rw [hiff id2]
      constructor
      · rintro ⟨j3, hj3, hs3⟩
        rw [hj] at hj3
        cases hj3
        exact ⟨j2, mapGet_mapSet_self .., by rw [hst]; exact hs3⟩
      · rintro ⟨j3, hj3, hs3⟩
        rw [mapGet_mapSet_self] at hj3
        cases hj3
        exact ⟨j, hj, by rw [← hst]; exact hs3⟩
    · rw [mapGet_mapSet_ne s.jobs id id2 j2 hid]
      exact hiff id2

theorem inv_stepOp (max : Nat) (s : ServerState) (op : Op) (h : Inv max s) :
    Inv max (stepOp max s op) := by
  cases op with
  | start id body =>
    by_cases hcap : max ≤ s.runningJobs.length
    · simpa [stepOp, startJob_atCapacity max s id body hcap] using h
    · by_cases hcred : (!body.email || !body.password) = true
      · have : startJob max s id body = (Resp.badRequest, s) := by
          unfold startJob
          rw [if_neg hcap, if_pos hcred]
        simpa [stepOp, this] using h
      · have he : body.email = true := by
          cases hb : body.email
          · simp [hb] at hcred
          · rfl
        have hp : body.password = true := by
          cases hb : body.password
          · simp [hb] at hcred
          · rfl
        obtain ⟨hnr, hnk, hiff, hlen⟩ := h
        rw [show stepOp max s (Op.start id body) = (startJob max s id body).2 from rfl,
          startJob_success_state max s id body (by omega) he hp]
        refine ⟨setAdd_nodup s.runningJobs id hnr, ?_, ?_, ?_⟩
        · cases hg : mapGet s.jobs id with
          | none =>
            rw [keys_mapSet_absent s.jobs id _ hg]
            have hidk : id ∉ s.jobs.map Prod.fst := (mapGet_eq_none s.jobs id).mp hg
            simp [List.nodup_append, hnk, hidk]
          | some j0 =>
            rw [keys_mapSet_present s.jobs id _ j0 hg]
            exact hnk
        · intro id2
          by_cases hid : id2 = id
          · subst hid
            simp only [mem_setAdd]
            constructor
            · intro _
              exact ⟨_, mapGet_mapSet_self .., rfl⟩
            · intro _
              exact Or.inr trivial
          · simp only [mem_setAdd]
            rw [mapGet_mapSet_ne s.jobs id id2 _ hid]
            constructor
            · rintro (h2 | h2)
              · exact (hiff id2).mp h2
              · exact absurd h2 hid
            · intro h2
              exact Or.inl ((hiff id2).mpr h2)
        · show (setAdd s.runningJobs id).length ≤ max
          rcases length_setAdd s.runningJobs id with h2 | h2 <;> omega
  | finalize id o =>
    cases hj : mapGet s.jobs id with
    | none => simpa [stepOp, finalizeJob, hj] using h
    | some j =>
      obtain ⟨hnr, hnk, hiff, hlen⟩ := h
      rw [show stepOp max s (Op.finalize id o) = finalizeJob s id o from rfl,
        finalizeJob_spec s id j o hj]
      refine ⟨setRemove_nodup s.runningJobs id hnr, ?_, ?_, ?_⟩
      · rw [keys_mapSet_present s.jobs id _ j hj]
        exact hnk
      · intro id2
        by_cases hid : id2 = id
        · subst hid
          constructor
          · intro h2
            exact absurd h2 (not_mem_setRemove_self s.runningJobs id2)
          · rintro ⟨j3, hj3, hs3⟩
            rw [mapGet_mapSet_self] at hj3
            cases hj3
            exact absurd hs3 (finalizeStatus_ne_running j.aborted o)
        · rw [mapGet_mapSet_ne s.jobs id id2 _ hid]
          rw [show ((id2 ∈ setRemove s.runningJobs id) ↔ id2 ∈ s.runningJobs) from
            by rw [mem_setRemove]; exact ⟨fun h2 => h2.1, fun h2 => ⟨h2, hid⟩⟩]
          exact hiff id2
      · exact Nat.le_trans (length_setRemove_le s.runningJobs id) hlen
  | endReq id =>
    cases hj : mapGet s.jobs id with
    | none => simpa [stepOp, endJob, hj] using h
    | some j =>
      by_cases hst : j.status = JobStatus.running
      · have he := endJob_running_state s id j hj hst
        refine inv_same_running max s (stepOp max s (Op.endReq id)) id j
          { j with aborted := true, logs := j.logs ++ ["Termination requested."] }
          h hj rfl ?_ ?_
        · rw [show stepOp max s (Op.endReq id) = (endJob s id).2 from rfl, he]
        · rw [show stepOp max s (Op.endReq id) = (endJob s id).2 from rfl, he]
      · have he : endJob s id = (Resp.conflict j.status, s) := by
          simp [endJob, hj, hst]
        simpa [stepOp, he] using h
  | attach id lid =>
    cases hj : mapGet s.jobs id with
    | none => simpa [stepOp, streamAttach, hj] using h
    | some j =>
      refine inv_same_running max s _ id j
        { j with listeners := lidAdd j.listeners lid } h hj rfl ?_ ?_
      · simp [stepOp, streamAttach, hj]
      · simp [stepOp, streamAttach, hj]
  | log ctx level ts formatted =>
    cases ctx with
    | none => simpa [stepOp, botLog_noContext] using h
    | some id =>
      by_cases hs : id ∈ s.sinks
      · cases hj : mapGet s.jobs id with
        | none => simpa [stepOp, botLog_stale s id level ts formatted hj] using h
        | some j =>
          refine inv_same_running max s _ id j
            { j with logs := j.logs ++ emitMessages formatted } h hj rfl ?_ ?_
          · simp [stepOp, botLog_spec s id j level ts formatted hj hs]
          · simp [stepOp, botLog_spec s id j level ts formatted hj hs]
      · simpa [stepOp, botLog_noSink s id level ts formatted hs] using h

theorem inv_initState (max : Nat) : Inv max initState := by
  refine ⟨List.nodup_nil, List.nodup_nil, ?_, Nat.zero_le max⟩
  intro id
  simp [initState, mapGet]

theorem inv_run (max : Nat) (ops : List Op) : ∀ s, Inv max s → Inv max (run max s ops) := by
  induction ops with
  | nil => intro s h; exact h
  | cons op rest ih =>
    intro s h
    simp only [run, List.foldl_cons]
    exact ih (stepOp max s op) (inv_stepOp max s op h)

theorem runningCount_le (max : Nat) (s : ServerState) (h : Inv max s) :
    runningCount s ≤ max := by
  obtain ⟨hnr, hnk, hiff, hlen⟩ := h
  have hsub : (s.jobs.filter (fun p => p.2.status == JobStatus.running)).map Prod.fst ⊆
      s.runningJobs := by
    intro a ha
    obtain ⟨p, hp, rfl⟩ := List.mem_map.mp ha
    have hmem := List.mem_filter.mp hp
    have hget : mapGet s.jobs p.1 = some p.2 := by
      have : (p.1, p.2) ∈ s.jobs := by simpa using hmem.1
      exact mapGet_of_mem_nodup s.jobs p.1 p.2 hnk this
    have hstat : p.2.status = JobStatus.running := by
      have := hmem.2
      simpa using this
    exact (hiff p.1).mpr ⟨p.2, hget, hstat⟩
  have hnodup : ((s.jobs.filter (fun p => p.2.status == JobStatus.running)).map Prod.fst).Nodup := by
    have hsl : (s.jobs.filter (fun p => p.2.status == JobStatus.running)).Sublist s.jobs :=
      List.filter_sublist s.jobs
    exact List.Nodup.sublist (List.Sublist.map Prod.fst hsl) hnk
  have hle := nodup_subset_length _ s.runningJobs hnodup hsub
  unfold runningCount
  rw [← List.length_map _ Prod.fst]
  omega

/-- C1: over every sequence of atomic steps from the initial state, the
number of registry records in running status never exceeds the ceiling; a
start request arriving at capacity is rejected with the capacity error and
changes nothing (no record, no slot); and because the capacity check and the
slot reservation sit in one suspension-free handler, two start requests
facing one remaining slot cannot both succeed: the second is rejected. -/
theorem c1_admission_bound (max : Nat) :
    (∀ ops : List Op, runningCount (run max initState ops) ≤ max) ∧
    (∀ (s : ServerState) (id : String) (body : StartBody), max ≤ s.runningJobs.length →
      startJob max s id body = (Resp.capacityError, s)) ∧
    (∀ (s : ServerState) (id1 : String) (body1 : StartBody) (id2 : String) (body2 : StartBody),
      s.runningJobs.length + 1 = max → id1 ∉ s.runningJobs →
      body1.email = true → body1.password = true →
      (startJob max s id1 body1).1 = Resp.accepted id1 ∧
      startJob max (startJob max s id1 body1).2 id2 body2 =
        (Resp.capacityError, (startJob max s id1 body1).2)) := by
  refine ⟨?_, ?_, ?_⟩
  · intro ops
    exact runningCount_le max _ (inv_run max ops initState (inv_initState max))
  · intro s id body hcap
    exact startJob_atCapacity max s id body hcap
  · intro s id1 body1 id2 body2 hone hfresh he hp
    rw [startJob_success max s id1 body1 (by omega) he hp]
    refine ⟨rfl, ?_⟩
    apply startJob_atCapacity
    simp only [length_setAdd_fresh s.runningJobs id1 hfresh]
    omega

/-- C1 witness: with ceiling 1, a two-start trace stays within the bound, a
start at capacity bounces, and of two starts aimed at the single free slot
only the first succeeds. -/
theorem c1_admission_bound_witness :
    runningCount (run 1 initState
      [Op.start "a" { email := true, password := true },
       Op.start "b" { email := true, password := true }]) ≤ 1 ∧
    startJob 1 fullState "c" { email := true, password := true } =
      (Resp.capacityError, fullState) ∧
    ((startJob 1 initState "a" { email := true, password := true }).1 = Resp.accepted "a" ∧
      startJob 1 (startJob 1 initState "a" { email := true, password := true }).2 "b"
          { email := true, password := true } =
        (Resp.capacityError, (startJob 1 initState "a" { email := true, password := true }).2)) :=
  ⟨(c1_admission_bound 1).1 _,
   (c1_admission_bound 1).2.1 fullState "c" { email := true, password := true } (by decide),
   (c1_admission_bound 1).2.2 initState "a" { email := true, password := true } "b"
     { email := true, password := true } (by decide) (by decide) rfl rfl⟩

/- Subscriber tracking. -/

theorem trackedB_iff (s : ServerState) (id : String) (lid : Nat) (j : Job)
    (hj : mapGet s.jobs id = some j) :
    trackedB s id lid = true ↔
      j.listeners.count lid = 1 ∧
      (∀ p ∈ s.jobs, p.1 = id ∨ p.2.listeners.count lid = 0) ∧
      lid ∈ s.usedLids := by
  unfold trackedB
  rw [hj]
  simp only [Bool.and_eq_true, List.all_eq_true, beq_iff_eq, Bool.or_eq_true, List.elem_iff]
  constructor
  · rintro ⟨⟨h1, h2⟩, h3⟩
    exact ⟨h1, fun p hp => by simpa using h2 p hp, h3⟩
  · rintro ⟨h1, h2, h3⟩
    exact ⟨⟨h1, fun p hp => by simpa using h2 p hp⟩, h3⟩

theorem goneB_iff (s : ServerState) (id : String) (lid : Nat) (j : Job)
    (hj : mapGet s.jobs id = some j) :
    goneB s id lid = true ↔
      ¬(j.status = JobStatus.running) ∧ id ∉ s.sinks ∧
      (∀ p ∈ s.jobs, p.2.listeners.count lid = 0) ∧ lid ∈ s.usedLids := by
  unfold goneB
  rw [hj]
  simp only [Bool.and_eq_true, Bool.not_eq_true', List.all_eq_true, beq_iff_eq,
    List.elem_iff, beq_eq_false_iff_ne, ne_eq]
  constructor
  · rintro ⟨⟨⟨h1, h2⟩, h3⟩, h4⟩
    exact ⟨h1, by simpa using h2, fun p hp => by simpa using h3 p hp, h4⟩
  · rintro ⟨h1, h2, h3, h4⟩
    exact ⟨⟨⟨h1, by simpa using h2⟩, fun p hp => by simpa using h3 p hp⟩, h4⟩

theorem startJob_state_cases (max : Nat) (s : ServerState) (id : String) (body : StartBody) :
    (startJob max s id body).2 = s ∨
    (startJob max s id body).2 =
      { s with
          jobs := mapSet s.jobs id
                    { id := id, status := JobStatus.running, logs := ["Job started."],
                      listeners := [], aborted := false },
          runningJobs := setAdd s.runningJobs id,
          sinks := setAdd s.sinks id } := by
  by_cases hcap : max ≤ s.runningJobs.length
  · left
    rw [startJob_atCapacity max s id body hcap]
  · by_cases hcred : (!body.email || !body.password) = true
    · left
      unfold startJob
      rw [if_neg hcap, if_pos hcred]
    · right
      have he : body.email = true := by
        cases hb : body.email
        · simp [hb] at hcred
        · rfl
      have hp : body.password = true := by
        cases hb : body.password
        · simp [hb] at hcred
        · rfl
      exact startJob_success_state max s id body (by omega) he hp

theorem all_count_mapSet (s : ServerState) (id idw : String) (lid : Nat) (jw : Job)
    (hall : ∀ p ∈ s.jobs, p.1 = id ∨ p.2.listeners.count lid = 0)
    (hw : idw = id ∨ jw.listeners.count lid = 0) :
    ∀ p ∈ mapSet s.jobs idw jw, p.1 = id ∨ p.2.listeners.count lid = 0 := by
  intro p hp
  rcases mem_mapSet s.jobs idw jw p hp with hpe | hp2
  · subst hpe
    exact hw
  · exact hall p hp2

theorem count_zero_of_other (s : ServerState) (id : String) (lid : Nat)
    (hall : ∀ p ∈ s.jobs, p.1 = id ∨ p.2.listeners.count lid = 0)
    (id2 : String) (j2 : Job) (hj2 : mapGet s.jobs id2 = some j2) (hne : ¬(id2 = id)) :
    j2.listeners.count lid = 0 := by
  rcases hall (id2, j2) (mapGet_mem s.jobs id2 j2 hj2) with h | h
  · exact absurd h hne
  · exact h

theorem trackedStep_refl (s : ServerState) (id : String) (lid : Nat) (j : Job)
    (hj : mapGet s.jobs id = some j) (ht : trackedB s id lid = true) :
    TrackedStep s s id lid j :=
  ⟨j, [], hj, ht, by simp, by simp⟩

theorem tracked_step_start (max : Nat) (s : ServerState) (id2 : String) (body : StartBody)
    (id : String) (lid : Nat) (j : Job)
    (hj : mapGet s.jobs id = some j) (ht : trackedB s id lid = true)
    (hfresh : mapGet s.jobs id2 = none) :
    TrackedStep s (stepOp max s (Op.start id2 body)) id lid j := by
  obtain ⟨ht1, ht2, ht3⟩ := (trackedB_iff s id lid j hj).mp ht
  have hne : ¬(id2 = id) := fun hh => by
    rw [hh, hj] at hfresh
    cases hfresh
  rcases startJob_state_cases max s id2 body with hcase | hcase
  · rw [show stepOp max s (Op.start id2 body) = (startJob max s id2 body).2 from rfl, hcase]
    exact trackedStep_refl s id lid j hj ht
  · rw [show stepOp max s (Op.start id2 body) = (startJob max s id2 body).2 from rfl, hcase]
    have hg : mapGet (mapSet s.jobs id2
        { id := id2, status := JobStatus.running, logs := ["Job started."],
          listeners := [], aborted := false }) id = some j := by
      rw [mapGet_mapSet_ne s.jobs id2 id _ (fun hh => hne hh.symm)]
      exact hj
    refine ⟨j, [], hg, ?_, by simp, by simp⟩
    refine (trackedB_iff _ id lid j hg).mpr ⟨ht1, ?_, ht3⟩
    exact all_count_mapSet s id id2 lid _ ht2 (Or.inr (by simp))

theorem tracked_step_finalize (s : ServerState) (id2 : String) (o : Outcome)
    (id : String) (lid : Nat) (j : Job)
    (hj : mapGet s.jobs id = some j) (ht : trackedB s id lid = true)
    (hne : ¬(id2 = id)) :
    TrackedStep s (finalizeJob s id2 o) id lid j := by
  obtain ⟨ht1, ht2, ht3⟩ := (trackedB_iff s id lid j hj).mp ht
  cases hj3 : mapGet s.jobs id2 with
  | none =>
    rw [show finalizeJob s id2 o = s from by simp [finalizeJob, hj3]]
    exact trackedStep_refl s id lid j hj ht
  | some j3 =>
    have hz : j3.listeners.count lid = 0 := count_zero_of_other s id lid ht2 id2 j3 hj3 hne
    rw [finalizeJob_spec s id2 j3 o hj3]
    have hg : mapGet (mapSet s.jobs id2
        { j3 with status := finalizeStatus j3.aborted o, logs := j3.logs ++ finalLines o,
                  listeners := [] }) id = some j := by
      rw [mapGet_mapSet_ne s.jobs id2 id _ (fun hh => hne hh.symm)]
      exact hj
    refine ⟨j, [], hg, ?_, by simp, ?_⟩
    · refine (trackedB_iff _ id lid j hg).mpr ⟨ht1, ?_, ht3⟩
      exact all_count_mapSet s id id2 lid _ ht2 (Or.inr (by simp))
    · show deliveredTo lid
        (s.trace ++ (finalLines o).flatMap (fun line => sendAll j3.listeners "log" line) ++
          j3.listeners.flatMap (fun l => [Event.send l "status" "terminated", Event.close l])) = _
      rw [deliveredTo_append, deliveredTo_append,
        deliveredTo_logFlat_zero lid j3.listeners (finalLines o) hz,
        deliveredTo_statusClose_zero lid j3.listeners "terminated" hz]
      simp

theorem tracked_step_endReq (max : Nat) (s : ServerState) (id2 : String)
    (id : String) (lid : Nat) (j : Job)
    (hj : mapGet s.jobs id = some j) (ht : trackedB s id lid = true) :
    TrackedStep s (stepOp max s (Op.endReq id2)) id lid j := by
  obtain ⟨ht1, ht2, ht3⟩ := (trackedB_iff s id lid j hj).mp ht
  cases hj3 : mapGet s.jobs id2 with
  | none =>
    rw [show stepOp max s (Op.endReq id2) = s from by simp [stepOp, endJob, hj3]]
    exact trackedStep_refl s id lid j hj ht
  | some j3 =>
    by_cases hst : j3.status = JobStatus.running
    · rw [show stepOp max s (Op.endReq id2) = (endJob s id2).2 from rfl,
        endJob_running_state s id2 j3 hj3 hst]
      by_cases hid : id2 = id
      · subst hid
        rw [hj] at hj3
        cases hj3
        have hg : mapGet (mapSet s.jobs id2
            { j with aborted := true, logs := j.logs ++ ["Termination requested."] }) id2 =
            some { j with aborted := true, logs := j.logs ++ ["Termination requested."] } :=
          mapGet_mapSet_self ..
        refine ⟨_, ["Termination requested."], hg, ?_, by simp, ?_⟩
        · refine (trackedB_iff _ id2 lid _ hg).mpr ⟨by simpa using ht1, ?_, ht3⟩
          exact all_count_mapSet s id2 id2 lid _ ht2 (Or.inl rfl)
        · show deliveredTo lid
            (s.trace ++ sendAll j.listeners "log" "Termination requested.") = _
          rw [deliveredTo_append, deliveredTo_sendAll_one lid j.listeners _ _ ht1]
          simp
      · have hz : j3.listeners.count lid = 0 :=
          count_zero_of_other s id lid ht2 id2 j3 hj3 hid
        have hg : mapGet (mapSet s.jobs id2
            { j3 with aborted := true, logs := j3.logs ++ ["Termination requested."] }) id =
            some j := by
          rw [mapGet_mapSet_ne s.jobs id2 id _ (fun hh => hid hh.symm)]
          exact hj
        refine ⟨j, [], hg, ?_, by simp, ?_⟩
        · refine (trackedB_iff _ id lid j hg).mpr ⟨ht1, ?_, ht3⟩
          exact all_count_mapSet s id id2 lid _ ht2 (Or.inr (by simpa using hz))
        · show deliveredTo lid
            (s.trace ++ sendAll j3.listeners "log" "Termination requested.") = _
          rw [deliveredTo_append, deliveredTo_sendAll_zero lid j3.listeners _ _ hz]
          simp
    · rw [show stepOp max s (Op.endReq id2) = s from by simp [stepOp, endJob, hj3, hst]]
      exact trackedStep_refl s id lid j hj ht

theorem tracked_step_attach (max : Nat) (s : ServerState) (id2 : String) (lid2 : Nat)
    (id : String) (lid : Nat) (j : Job)
    (hj : mapGet s.jobs id = some j) (ht : trackedB s id lid = true)
    (hfresh : lid2 ∉ s.usedLids) :
    TrackedStep s (stepOp max s (Op.attach id2 lid2)) id lid j := by
  obtain ⟨ht1, ht2, ht3⟩ := (trackedB_iff s id lid j hj).mp ht
  have hne2 : ¬(lid2 = lid) := fun hh => hfresh (hh ▸ ht3)
  cases hj3 : mapGet s.jobs id2 with
  | none =>
    rw [show stepOp max s (Op.attach id2 lid2) = s from by simp [stepOp, streamAttach, hj3]]
    exact trackedStep_refl s id lid j hj ht
  | some j3 =>
    rw [show stepOp max s (Op.attach id2 lid2) =
        { s with jobs := mapSet s.jobs id2 { j3 with listeners := lidAdd j3.listeners lid2 },
                 trace := s.trace ++ j3.logs.map (fun line => Event.send lid2 "log" line),
                 usedLids := lidAdd s.usedLids lid2 } from by
      simp [stepOp, streamAttach, hj3]]
    have htr : deliveredTo lid
        (s.trace ++ j3.logs.map (fun line => Event.send lid2 "log" line)) =
        deliveredTo lid s.trace := by
      rw [deliveredTo_append, deliveredTo_replay_ne lid lid2 hne2 j3.logs]
      simp
    have hused : lid ∈ lidAdd s.usedLids lid2 := (mem_lidAdd s.usedLids lid2 lid).mpr (Or.inl ht3)
    by_cases hid : id2 = id
    · subst hid
      rw [hj] at hj3
      cases hj3
      have hg : mapGet (mapSet s.jobs id2 { j with listeners := lidAdd j.listeners lid2 }) id2 =
          some { j with listeners := lidAdd j.listeners lid2 } := mapGet_mapSet_self ..
      refine ⟨_, [], hg, ?_, by simp, by simpa using htr⟩
      refine (trackedB_iff _ id2 lid _ hg).mpr ⟨?_, ?_, hused⟩
      · show (lidAdd j.listeners lid2).count lid = 1
        rw [count_lidAdd_ne j.listeners lid2 lid (fun hh => hne2 hh.symm)]
        exact ht1
      · exact all_count_mapSet s id2 id2 lid _ ht2 (Or.inl rfl)
    · have hz : j3.listeners.count lid = 0 :=
        count_zero_of_other s id lid ht2 id2 j3 hj3 hid
      have hg : mapGet (mapSet s.jobs id2 { j3 with listeners := lidAdd j3.listeners lid2 }) id =
          some j := by
        rw [mapGet_mapSet_ne s.jobs id2 id _ (fun hh => hid hh.symm)]
        exact hj
      refine ⟨j, [], hg, ?_, by simp, by simpa using htr⟩
      refine (trackedB_iff _ id lid j hg).mpr ⟨ht1, ?_, hused⟩
      refine all_count_mapSet s id id2 lid _ ht2 (Or.inr ?_)
      show (lidAdd j3.listeners lid2).count lid = 0
      rw [count_lidAdd_ne j3.listeners lid2 lid (fun hh => hne2 hh.symm)]
      exact hz

theorem tracked_step_log (max : Nat) (s : ServerState) (ctx : Option String)
    (level ts formatted : String) (id : String) (lid : Nat) (j : Job)
    (hj : mapGet s.jobs id = some j) (ht : trackedB s id lid = true) :
    TrackedStep s (stepOp max s (Op.log ctx level ts formatted)) id lid j := by
  obtain ⟨ht1, ht2, ht3⟩ := (trackedB_iff s id lid j hj).mp ht
  cases ctx with
  | none =>
    rw [show stepOp max s (Op.log none level ts formatted) = s from rfl]
    exact trackedStep_refl s id lid j hj ht
  | some id3 =>
    by_cases hs3 : id3 ∈ s.sinks
    · cases hj3 : mapGet s.jobs id3 with
      | none =>
        rw [show stepOp max s (Op.log (some id3) level ts formatted) = s from
          botLog_stale s id3 level ts formatted hj3]
        exact trackedStep_refl s id lid j hj ht
      | some j3 =>
        rw [show stepOp max s (Op.log (some id3) level ts formatted) =
            botLog s (some id3) level ts formatted from rfl,
          botLog_spec s id3 j3 level ts formatted hj3 hs3]
        by_cases hid : id3 = id
        · subst hid
          rw [hj] at hj3
          cases hj3
          have hg : mapGet (mapSet s.jobs id3
              { j with logs := j.logs ++ emitMessages formatted }) id3 =
              some { j with logs := j.logs ++ emitMessages formatted } := mapGet_mapSet_self ..
          refine ⟨_, emitMessages formatted, hg, ?_, by simp, ?_⟩
          · refine (trackedB_iff _ id3 lid _ hg).mpr ⟨by simpa using ht1, ?_, ht3⟩
            exact all_count_mapSet s id3 id3 lid _ ht2 (Or.inl rfl)
          · show deliveredTo lid (s.trace ++ (emitMessages formatted).flatMap
                (fun m => sendAll j.listeners "log" m)) = _
            rw [deliveredTo_append,
              deliveredTo_logFlat_one lid j.listeners (emitMessages formatted) ht1]
        · have hz : j3.listeners.count lid = 0 :=
            count_zero_of_other s id lid ht2 id3 j3 hj3 hid
          have hg : mapGet (mapSet s.jobs id3
              { j3 with logs := j3.logs ++ emitMessages formatted }) id = some j := by
            rw [mapGet_mapSet_ne s.jobs id3 id _ (fun hh => hid hh.symm)]
            exact hj
          refine ⟨j, [], hg, ?_, by simp, ?_⟩
          · refine (trackedB_iff _ id lid j hg).mpr ⟨ht1, ?_, ht3⟩
            exact all_count_mapSet s id id3 lid _ ht2 (Or.inr (by simpa using hz))
          · show deliveredTo lid (s.trace ++ (emitMessages formatted).flatMap
                (fun m => sendAll j3.listeners "log" m)) = _
            rw [deliveredTo_append,
              deliveredTo_logFlat_zero lid j3.listeners (emitMessages formatted) hz]
            simp
    · rw [show stepOp max s (Op.log (some id3) level ts formatted) = s from
        botLog_noSink s id3 level ts formatted hs3]
      exact trackedStep_refl s id lid j hj ht

theorem tracked_step (max : Nat) (s : ServerState) (op : Op) (id : String) (lid : Nat) (j : Job)
    (hj : mapGet s.jobs id = some j) (ht : trackedB s id lid = true)
    (hok : opOk s op = true) (hnf : noFinalizeOf id [op] = true) :
    TrackedStep s (stepOp max s op) id lid j := by
  cases op with
  | start id2 body =>
    have hfresh : mapGet s.jobs id2 = none := by
      simpa [opOk, Option.isNone_iff_eq_none] using hok
    exact tracked_step_start max s id2 body id lid j hj ht hfresh
  | finalize id2 o =>
    have hne : ¬(id2 = id) := by
      simpa [noFinalizeOf] using hnf
    exact tracked_step_finalize s id2 o id lid j hj ht hne
  | endReq id2 => exact tracked_step_endReq max s id2 id lid j hj ht
  | attach id2 lid2 =>
    have hfresh : lid2 ∉ s.usedLids := by
      simpa [opOk] using hok
    exact tracked_step_attach max s id2 lid2 id lid j hj ht hfresh
  | log ctx level ts formatted => exact tracked_step_log max s ctx level ts formatted id lid j hj ht

/- Run utilities. -/

theorem run_cons (max : Nat) (s : ServerState) (op : Op) (rest : List Op) :
    run max s (op :: rest) = run max (stepOp max s op) rest := by
  simp [run]

theorem run_append (max : Nat) (s : ServerState) (l1 l2 : List Op) :
    run max s (l1 ++ l2) = run max (run max s l1) l2 := by
  simp [run, List.foldl_append]

theorem wfRun_cons_elim (max : Nat) (s : ServerState) (op : Op) (rest : List Op)
    (h : wfRun max s (op :: rest) = true) :
    opOk s op = true ∧ wfRun max (stepOp max s op) rest = true := by
  simpa [wfRun, Bool.and_eq_true] using h

theorem wfRun_append_elim (max : Nat) (l1 : List Op) :
    ∀ (s : ServerState) (l2 : List Op), wfRun max s (l1 ++ l2) = true →
    wfRun max s l1 = true ∧ wfRun max (run max s l1) l2 = true := by
  induction l1 with
  | nil =>
    intro s l2 h
    exact ⟨rfl, by simpa [run] using h⟩
  | cons op rest ih =>
    intro s l2 h
    rw [List.cons_append] at h
    obtain ⟨hok, h2⟩ := wfRun_cons_elim max s op (rest ++ l2) h
    obtain ⟨h3, h4⟩ := ih (stepOp max s op) l2 h2
    refine ⟨?_, ?_⟩
    · simp [wfRun, hok, h3]
    · rw [run_cons]
      exact h4

theorem noFinalizeOf_cons_elim (id : String) (op : Op) (rest : List Op)
    (h : noFinalizeOf id (op :: rest) = true) :
    noFinalizeOf id [op] = true ∧ noFinalizeOf id rest = true := by
  simp only [noFinalizeOf, List.all_cons, List.all_nil, Bool.and_eq_true, Bool.and_true] at h ⊢
  exact h

theorem mem_mapSet_nodup (m : List (String × Job)) (k : String) (v : Job) (p : String × Job)
    (hn : (m.map Prod.fst).Nodup) (hp : p ∈ mapSet m k v) (hk : p.1 = k) : p = (k, v) := by
  induction m with
  | nil =>
    simp [mapSet] at hp
    simp [hp]
  | cons q rest ih =>
    obtain ⟨k2, v2⟩ := q
    simp only [List.map_cons, List.nodup_cons] at hn
    by_cases h2 : k2 = k
    · subst h2
      simp only [mapSet, if_pos rfl] at hp
      rcases List.mem_cons.mp hp with h3 | h3
      · simp [h3]
      · exact absurd (hk ▸ List.mem_map_of_mem Prod.fst h3) hn.1
    · simp only [mapSet, if_neg h2] at hp
      rcases List.mem_cons.mp hp with h3 | h3
      · rw [h3] at hk
        exact absurd hk h2
      · exact ih hn.2 h3

theorem keys_nodup_stepOp (max : Nat) (s : ServerState) (op : Op)
    (hok : opOk s op = true) (hn : (s.jobs.map Prod.fst).Nodup) :
    ((stepOp max s op).jobs.map Prod.fst).Nodup := by
  cases op with
  | start id body =>
    have hfresh : mapGet s.jobs id = none := by
      simpa [opOk, Option.isNone_iff_eq_none] using hok
    rcases startJob_state_cases max s id body with hcase | hcase
    · rw [show stepOp max s (Op.start id body) = (startJob max s id body).2 from rfl, hcase]
      exact hn
    · rw [show stepOp max s (Op.start id body) = (startJob max s id body).2 from rfl, hcase]
      show ((mapSet s.jobs id _).map Prod.fst).Nodup
      rw [keys_mapSet_absent s.jobs id _ hfresh]
      have hidk : id ∉ s.jobs.map Prod.fst := (mapGet_eq_none s.jobs id).mp hfresh
      simp [List.nodup_append, hn, hidk]
  | finalize id o =>
    cases hj : mapGet s.jobs id with
    | none => simpa [stepOp, finalizeJob, hj] using hn
    | some j =>
      rw [show stepOp max s (Op.finalize id o) = finalizeJob s id o from rfl,
        finalizeJob_spec s id j o hj]
      show ((mapSet s.jobs id _).map Prod.fst).Nodup
      rw [keys_mapSet_present s.jobs id _ j hj]
      exact hn
  | endReq id =>
    cases hj : mapGet s.jobs id with
    | none => simpa [stepOp, endJob, hj] using hn
    | some j =>
      by_cases hst : j.status = JobStatus.running
      · rw [show stepOp max s (Op.endReq id) = (endJob s id).2 from rfl,
          endJob_running_state s id j hj hst]
        show ((mapSet s.jobs id _).map Prod.fst).Nodup
        rw [keys_mapSet_present s.jobs id _ j hj]
        exact hn
      · have : endJob s id = (Resp.conflict j.status, s) := by simp [endJob, hj, hst]
        simpa [stepOp, this] using hn
  | attach id lid =>
    cases hj : mapGet s.jobs id with
    | none => simpa [stepOp, streamAttach, hj] using hn
    | some j =>
      have : (stepOp max s (Op.attach id lid)).jobs =
          mapSet s.jobs id { j with listeners := lidAdd j.listeners lid } := by
        simp [stepOp, streamAttach, hj]
      rw [this, keys_mapSet_present s.jobs id _ j hj]
      exact hn
  | log ctx level ts formatted =>
    cases ctx with
    | none => simpa [stepOp] using hn
    | some id3 =>
      by_cases hs3 : id3 ∈ s.sinks
      · cases hj : mapGet s.jobs id3 with
        | none => simpa [stepOp, botLog_stale s id3 level ts formatted hj] using hn
        | some j3 =>
          have : (stepOp max s (Op.log (some id3) level ts formatted)).jobs =
              mapSet s.jobs id3 { j3 with logs := j3.logs ++ emitMessages formatted } := by
            simp [stepOp, botLog_spec s id3 j3 level ts formatted hj hs3]
          rw [this, keys_mapSet_present s.jobs id3 _ j3 hj]
          exact hn
      · simpa [stepOp, botLog_noSink s id3 level ts formatted hs3] using hn

theorem keys_nodup_run (max : Nat) (ops : List Op) :
    ∀ s : ServerState, wfRun max s ops = true → (s.jobs.map Prod.fst).Nodup →
    ((run max s ops).jobs.map Prod.fst).Nodup := by
  induction ops with
  | nil => intro s _ hn; exact hn
  | cons op rest ih =>
    intro s hwf hn
    obtain ⟨hok, hwf2⟩ := wfRun_cons_elim max s op rest hwf
    rw [run_cons]
    exact ih (stepOp max s op) hwf2 (keys_nodup_stepOp max s op hok hn)

theorem tracked_run (max : Nat) (ops : List Op) :
    ∀ (s : ServerState) (id : String) (lid : Nat) (j : Job),
    mapGet s.jobs id = some j → trackedB s id lid = true →
    wfRun max s ops = true → noFinalizeOf id ops = true →
    TrackedStep s (run max s ops) id lid j := by
  induction ops with
  | nil =>
    intro s id lid j hj ht _ _
    exact trackedStep_refl s id lid j hj ht
  | cons op rest ih =>
    intro s id lid j hj ht hwf hnf
    obtain ⟨hok, hwf2⟩ := wfRun_cons_elim max s op rest hwf
    obtain ⟨hnf1, hnf2⟩ := noFinalizeOf_cons_elim id op rest hnf
    obtain ⟨j1, δ1, hj1, ht1, hlog1, htr1⟩ := tracked_step max s op id lid j hj ht hok hnf1
    obtain ⟨j2, δ2, hj2, ht2, hlog2, htr2⟩ :=
      ih (stepOp max s op) id lid j1 hj1 ht1 hwf2 hnf2
    rw [run_cons]
    refine ⟨j2, δ1 ++ δ2, hj2, ht2, ?_, ?_⟩
    · rw [hlog2, hlog1, List.append_assoc]
    · rw [htr2, htr1, List.map_append, List.append_assoc]

/- Finalization as seen by a live subscriber, and the quiet world after. -/

theorem tracked_finalize (s : ServerState) (id : String) (lid : Nat) (j : Job) (o : Outcome)
    (hj : mapGet s.jobs id = some j) (ht : trackedB s id lid = true)
    (hnk : (s.jobs.map Prod.fst).Nodup) :
    mapGet (finalizeJob s id o).jobs id =
      some { j with status := finalizeStatus j.aborted o, logs := j.logs ++ finalLines o,
                    listeners := [] } ∧
    deliveredTo lid (finalizeJob s id o).trace =
      deliveredTo lid s.trace ++ (finalLines o).map (fun line => Event.send lid "log" line) ++
        [Event.send lid "status" "terminated", Event.close lid] ∧
    goneB (finalizeJob s id o) id lid = true := by
  obtain ⟨ht1, ht2, ht3⟩ := (trackedB_iff s id lid j hj).mp ht
  rw [finalizeJob_spec s id j o hj]
  refine ⟨mapGet_mapSet_self .., ?_, ?_⟩
  · show deliveredTo lid
      (s.trace ++ (finalLines o).flatMap (fun line => sendAll j.listeners "log" line) ++
        j.listeners.flatMap (fun l => [Event.send l "status" "terminated", Event.close l])) = _
    rw [deliveredTo_append, deliveredTo_append,
      deliveredTo_logFlat_one lid j.listeners (finalLines o) ht1,
      deliveredTo_statusClose_one lid j.listeners "terminated" ht1]
  · refine (goneB_iff _ id lid _ (mapGet_mapSet_self ..)).mpr ⟨?_, ?_, ?_, ht3⟩
    · exact finalizeStatus_ne_running j.aborted o
    · exact not_mem_setRemove_self s.sinks id
    · intro p hp
      by_cases hpk : p.1 = id
      · rw [mem_mapSet_nodup s.jobs id _ p hnk hp hpk]
        simp
      · have hp2 : p ∈ s.jobs := by
          rcases mem_mapSet s.jobs id _ p hp with hpe | hp2
          · rw [hpe] at hpk
            exact absurd rfl hpk
          · exact hp2
        rcases ht2 p hp2 with h | h
        · exact absurd h hpk
        · exact h

theorem goneB_of_parts (s2 : ServerState) (id : String) (lid : Nat) (j2 : Job)
    (hj2 : mapGet s2.jobs id = some j2) (h1 : ¬(j2.status = JobStatus.running))
    (h2 : id ∉ s2.sinks) (h3 : ∀ p ∈ s2.jobs, p.2.listeners.count lid = 0)
    (h4 : lid ∈ s2.usedLids) : goneB s2 id lid = true :=
  (goneB_iff s2 id lid j2 hj2).mpr ⟨h1, h2, h3, h4⟩

theorem not_mem_setAdd_of_ne (s : List String) (x y : String) (h : y ∉ s) (hne : ¬(y = x)) :
    y ∉ setAdd s x := by
  intro hm
  rcases (mem_setAdd s x y).mp hm with h2 | h2
  · exact h h2
  · exact hne h2

theorem not_mem_setRemove_of_not_mem (s : List String) (x y : String) (h : y ∉ s) :
    y ∉ setRemove s x := by
  intro hm
  exact h ((mem_setRemove s x y).mp hm).1

theorem gone_step (max : Nat) (s : ServerState) (op : Op) (id : String) (lid : Nat) (j : Job)
    (hj : mapGet s.jobs id = some j) (hg : goneB s id lid = true) (hok : opOk s op = true) :
    ∃ j2, mapGet (stepOp max s op).jobs id = some j2 ∧ j2.logs = j.logs ∧
      j2.status = j.status ∧ goneB (stepOp max s op) id lid = true ∧
      deliveredTo lid (stepOp max s op).trace = deliveredTo lid s.trace := by
  obtain ⟨hg1, hg2, hg3, hg4⟩ := (goneB_iff s id lid j hj).mp hg
  cases op with
  | start id2 body =>
    have hfresh : mapGet s.jobs id2 = none := by
      simpa [opOk, Option.isNone_iff_eq_none] using hok
    have hne : ¬(id2 = id) := fun hh => by
      rw [hh, hj] at hfresh
      cases hfresh
    rcases startJob_state_cases max s id2 body with hcase | hcase
    · rw [show stepOp max s (Op.start id2 body) = (startJob max s id2 body).2 from rfl, hcase]
      exact ⟨j, hj, rfl, rfl, hg, rfl⟩
    · rw [show stepOp max s (Op.start id2 body) = (startJob max s id2 body).2 from rfl, hcase]
      have hget : mapGet (mapSet s.jobs id2
          { id := id2, status := JobStatus.running, logs := ["Job started."],
            listeners := [], aborted := false }) id = some j := by
        rw [mapGet_mapSet_ne s.jobs id2 id _ (fun hh => hne hh.symm)]
        exact hj
      refine ⟨j, hget, rfl, rfl, ?_, rfl⟩
      refine goneB_of_parts _ id lid j hget hg1
        (not_mem_setAdd_of_ne s.sinks id2 id hg2 (fun hh => hne hh.symm)) ?_ hg4
      intro p hp
      rcases mem_mapSet s.jobs id2 _ p hp with hpe | hp2
      · rw [hpe]
        simp
      · exact hg3 p hp2
  | finalize id2 o =>
    cases hj3 : mapGet s.jobs id2 with
    | none =>
      rw [show opOk s (Op.finalize id2 o) = false from by simp [opOk, hj3]] at hok
      cases hok
    | some j3 =>
      have hrun : j3.status = JobStatus.running := by
        simpa [opOk, hj3] using hok
      have hne : ¬(id2 = id) := fun hh => by
        rw [hh, hj] at hj3
        cases hj3
        exact hg1 hrun
      have hz : j3.listeners.count lid = 0 := hg3 (id2, j3) (mapGet_mem s.jobs id2 j3 hj3)
      rw [show stepOp max s (Op.finalize id2 o) = finalizeJob s id2 o from rfl,
        finalizeJob_spec s id2 j3 o hj3]
      have hget : mapGet (mapSet s.jobs id2
          { j3 with status := finalizeStatus j3.aborted o, logs := j3.logs ++ finalLines o,
                    listeners := [] }) id = some j := by
        rw [mapGet_mapSet_ne s.jobs id2 id _ (fun hh => hne hh.symm)]
        exact hj
      refine ⟨j, hget, rfl, rfl, ?_, ?_⟩
      · refine goneB_of_parts _ id lid j hget hg1
          (not_mem_setRemove_of_not_mem s.sinks id2 id hg2) ?_ hg4
        intro p hp
        rcases mem_mapSet s.jobs id2 _ p hp with hpe | hp2
        · rw [hpe]
          simp
        · exact hg3 p hp2
      · show deliveredTo lid
          (s.trace ++ (finalLines o).flatMap (fun line => sendAll j3.listeners "log" line) ++
            j3.listeners.flatMap (fun l => [Event.send l "status" "terminated", Event.close l])) = _
        rw [deliveredTo_append, deliveredTo_append,
          deliveredTo_logFlat_zero lid j3.listeners (finalLines o) hz,
          deliveredTo_statusClose_zero lid j3.listeners "terminated" hz]
        simp
  | endReq id2 =>
    cases hj3 : mapGet s.jobs id2 with
    | none =>
      rw [show stepOp max s (Op.endReq id2) = s from by simp [stepOp, endJob, hj3]]
      exact ⟨j, hj, rfl, rfl, hg, rfl⟩
    | some j3 =>
      by_cases hst : j3.status = JobStatus.running
      · have hne : ¬(id2 = id) := fun hh => by
          rw [hh, hj] at hj3
          cases hj3
          exact hg1 hst
        have hz : j3.listeners.count lid = 0 := hg3 (id2, j3) (mapGet_mem s.jobs id2 j3 hj3)
        rw [show stepOp max s (Op.endReq id2) = (endJob s id2).2 from rfl,
          endJob_running_state s id2 j3 hj3 hst]
        have hget : mapGet (mapSet s.jobs id2
            { j3 with aborted := true, logs := j3.logs ++ ["Termination requested."] }) id =
            some j := by
          rw [mapGet_mapSet_ne s.jobs id2 id _ (fun hh => hne hh.symm)]
          exact hj
        refine ⟨j, hget, rfl, rfl, ?_, ?_⟩
        · refine goneB_of_parts _ id lid j hget hg1 hg2 ?_ hg4
          intro p hp
          rcases mem_mapSet s.jobs id2 _ p hp with hpe | hp2
          · rw [hpe]
            simpa using hz
          · exact hg3 p hp2
        · show deliveredTo lid
            (s.trace ++ sendAll j3.listeners "log" "Termination requested.") = _
          rw [deliveredTo_append, deliveredTo_sendAll_zero lid j3.listeners _ _ hz]
          simp
      · rw [show stepOp max s (Op.endReq id2) = s from by simp [stepOp, endJob, hj3, hst]]
        exact ⟨j, hj, rfl, rfl, hg, rfl⟩
  | attach id2 lid2 =>
    have hfresh : lid2 ∉ s.usedLids := by
      simpa [opOk] using hok
    have hne2 : ¬(lid2 = lid) := fun hh => hfresh (hh ▸ hg4)
    cases hj3 : mapGet s.jobs id2 with
    | none =>
      rw [show stepOp max s (Op.attach id2 lid2) = s from by simp [stepOp, streamAttach, hj3]]
      exact ⟨j, hj, rfl, rfl, hg, rfl⟩
    | some j3 =>
      rw [show stepOp max s (Op.attach id2 lid2) =
          { s with jobs := mapSet s.jobs id2 { j3 with listeners := lidAdd j3.listeners lid2 },
                   trace := s.trace ++ j3.logs.map (fun line => Event.send lid2 "log" line),
                   usedLids := lidAdd s.usedLids lid2 } from by
        simp [stepOp, streamAttach, hj3]]
      have hza : ∀ p ∈ mapSet s.jobs id2 { j3 with listeners := lidAdd j3.listeners lid2 },
          p.2.listeners.count lid = 0 := by
        intro p hp
        rcases mem_mapSet s.jobs id2 _ p hp with hpe | hp2
        · rw [hpe]
          show (lidAdd j3.listeners lid2).count lid = 0
          rw [count_lidAdd_ne j3.listeners lid2 lid (fun hh => hne2 hh.symm)]
          exact hg3 (id2, j3) (mapGet_mem s.jobs id2 j3 hj3)
        · exact hg3 p hp2
      have htr : deliveredTo lid
          (s.trace ++ j3.logs.map (fun line => Event.send lid2 "log" line)) =
          deliveredTo lid s.trace := by
        rw [deliveredTo_append, deliveredTo_replay_ne lid lid2 hne2 j3.logs]
        simp
      have hused : lid ∈ lidAdd s.usedLids lid2 :=
        (mem_lidAdd s.usedLids lid2 lid).mpr (Or.inl hg4)
      by_cases hid : id2 = id
      · subst hid
        rw [hj] at hj3
        cases hj3
        have hget : mapGet (mapSet s.jobs id2 { j with listeners := lidAdd j.listeners lid2 })
            id2 = some { j with listeners := lidAdd j.listeners lid2 } := mapGet_mapSet_self ..
        refine ⟨_, hget, rfl, rfl, ?_, by simpa using htr⟩
        exact goneB_of_parts _ id2 lid _ hget hg1 hg2 hza hused
      · have hget : mapGet (mapSet s.jobs id2 { j3 with listeners := lidAdd j3.listeners lid2 })
            id = some j := by
          rw [mapGet_mapSet_ne s.jobs id2 id _ (fun hh => hid hh.symm)]
          exact hj
        refine ⟨j, hget, rfl, rfl, ?_, by simpa using htr⟩
        exact goneB_of_parts _ id lid j hget hg1 hg2 hza hused
  | log ctx level ts formatted =>
    cases ctx with
    | none => exact ⟨j, hj, rfl, rfl, hg, rfl⟩
    | some id3 =>
      by_cases hs3 : id3 ∈ s.sinks
      · have hne : ¬(id3 = id) := fun hh => hg2 (hh ▸ hs3)
        cases hj3 : mapGet s.jobs id3 with
        | none =>
          rw [show stepOp max s (Op.log (some id3) level ts formatted) = s from
            botLog_stale s id3 level ts formatted hj3]
          exact ⟨j, hj, rfl, rfl, hg, rfl⟩
        | some j3 =>
          have hz : j3.listeners.count lid = 0 := hg3 (id3, j3) (mapGet_mem s.jobs id3 j3 hj3)
          rw [show stepOp max s (Op.log (some id3) level ts formatted) =
              botLog s (some id3) level ts formatted from rfl,
            botLog_spec s id3 j3 level ts formatted hj3 hs3]
          have hget : mapGet (mapSet s.jobs id3
              { j3 with logs := j3.logs ++ emitMessages formatted }) id = some j := by
            rw [mapGet_mapSet_ne s.jobs id3 id _ (fun hh => hne hh.symm)]
            exact hj
          refine ⟨j, hget, rfl, rfl, ?_, ?_⟩
          · refine goneB_of_parts _ id lid j hget hg1 hg2 ?_ hg4
            intro p hp
            rcases mem_mapSet s.jobs id3 _ p hp with hpe | hp2
            · rw [hpe]
              simpa using hz
            · exact hg3 p hp2
          · show deliveredTo lid (s.trace ++ (emitMessages formatted).flatMap
                (fun m => sendAll j3.listeners "log" m)) = _
            rw [deliveredTo_append,
              deliveredTo_logFlat_zero lid j3.listeners (emitMessages formatted) hz]
            simp
      · rw [show stepOp max s (Op.log (some id3) level ts formatted) = s from
          botLog_noSink s id3 level ts formatted hs3]
        exact ⟨j, hj, rfl, rfl, hg, rfl⟩

theorem gone_run (max : Nat) (ops : List Op) :
    ∀ (s : ServerState) (id : String) (lid : Nat) (j : Job),
    mapGet s.jobs id = some j → goneB s id lid = true → wfRun max s ops = true →
    ∃ j2, mapGet (run max s ops).jobs id = some j2 ∧ j2.logs = j.logs ∧
      j2.status = j.status ∧ goneB (run max s ops) id lid = true ∧
      deliveredTo lid (run max s ops).trace = deliveredTo lid s.trace := by
  induction ops with
  | nil =>
    intro s id lid j hj hg _
    exact ⟨j, hj, rfl, rfl, hg, rfl⟩
  | cons op rest ih =>
    intro s id lid j hj hg hwf
    obtain ⟨hok, hwf2⟩ := wfRun_cons_elim max s op rest hwf
    obtain ⟨j1, hj1, hlog1, hst1, hg1, htr1⟩ := gone_step max s op id lid j hj hg hok
    obtain ⟨j2, hj2, hlog2, hst2, hg2, htr2⟩ := ih (stepOp max s op) id lid j1 hj1 hg1 hwf2
    rw [run_cons]
    exact ⟨j2, hj2, by rw [hlog2, hlog1], by rw [hst2, hst1], hg2, by rw [htr2, htr1]⟩

theorem count_lidAdd_self (s : List Nat) (x : Nat) (h : s.count x = 0) :
    (lidAdd s x).count x = 1 := by
  have hn : x ∉ s := List.count_eq_zero.mp h
  simp [lidAdd, hn, List.count_append, h]

theorem deliveredTo_replay_self (lid : Nat) (logs : List String) :
    deliveredTo lid (logs.map (fun line => Event.send lid "log" line)) =
      logs.map (fun line => Event.send lid "log" line) := by
  unfold deliveredTo
  rw [List.filter_eq_self]
  intro e he
  obtain ⟨line, hline, rfl⟩ := List.mem_map.mp he
  simp

theorem streamAttach_state (s : ServerState) (id : String) (j : Job) (lid : Nat)
    (hj : mapGet s.jobs id = some j) :
    streamAttach s id lid =
      (Resp.streamOpened,
        { s with jobs := mapSet s.jobs id { j with listeners := lidAdd j.listeners lid },
                 trace := s.trace ++ j.logs.map (fun line => Event.send lid "log" line),
                 usedLids := lidAdd s.usedLids lid }) := by
  simp [streamAttach, hj]

/-- C3: streaming an unknown id answers 404 and changes nothing; for a known
job the handler first replays the entire log history to the new subscriber,
in order, then attaches it, atomically, so that over any later well-formed
steps that do not finalize the job the subscriber has received exactly the
history plus every line appended since, each once and in order; and when the
job finalizes, after the terminal status event is delivered the subscriber
is removed from every listener set and its channel is closed. -/
theorem c3_stream_endpoint (max : Nat) (s : ServerState) (id : String) (lid : Nat) :
    (mapGet s.jobs id = none → streamAttach s id lid = (Resp.notFound, s)) ∧
    (∀ j, mapGet s.jobs id = some j →
      lid ∉ s.usedLids → (∀ p ∈ s.jobs, p.2.listeners.count lid = 0) →
      deliveredTo lid s.trace = [] → (s.jobs.map Prod.fst).Nodup →
      (streamAttach s id lid).1 = Resp.streamOpened ∧
      deliveredTo lid (streamAttach s id lid).2.trace =
        j.logs.map (fun line => Event.send lid "log" line) ∧
      trackedB (streamAttach s id lid).2 id lid = true ∧
      (∀ ops, wfRun max (streamAttach s id lid).2 ops = true →
        noFinalizeOf id ops = true →
        ∃ j2 δ, mapGet (run max (streamAttach s id lid).2 ops).jobs id = some j2 ∧
          j2.logs = j.logs ++ δ ∧
          deliveredTo lid (run max (streamAttach s id lid).2 ops).trace =
            (j.logs ++ δ).map (fun line => Event.send lid "log" line)) ∧
      (∀ o, deliveredTo lid (finalizeJob (streamAttach s id lid).2 id o).trace =
          (j.logs ++ finalLines o).map (fun line => Event.send lid "log" line) ++
            [Event.send lid "status" "terminated", Event.close lid] ∧
        goneB (finalizeJob (streamAttach s id lid).2 id o) id lid = true)) := by
  refine ⟨?_, ?_⟩
  · intro h
    simp [streamAttach, h]
  · intro j hj hfresh hzero htr0 hnk
    rw [streamAttach_state s id j lid hj]
    have hj1 : mapGet (mapSet s.jobs id { j with listeners := lidAdd j.listeners lid }) id =
        some { j with listeners := lidAdd j.listeners lid } := mapGet_mapSet_self ..
    have hz : j.listeners.count lid = 0 := hzero (id, j) (mapGet_mem s.jobs id j hj)
    have hcount : (lidAdd j.listeners lid).count lid = 1 := count_lidAdd_self j.listeners lid hz
    have htrace : deliveredTo lid
        (s.trace ++ j.logs.map (fun line => Event.send lid "log" line)) =
        j.logs.map (fun line => Event.send lid "log" line) := by
      rw [deliveredTo_append, htr0, deliveredTo_replay_self]
      simp
    have htB : trackedB
        { s with jobs := mapSet s.jobs id { j with listeners := lidAdd j.listeners lid },
                 trace := s.trace ++ j.logs.map (fun line => Event.send lid "log" line),
                 usedLids := lidAdd s.usedLids lid } id lid = true := by
      refine (trackedB_iff _ id lid _ hj1).mpr ⟨hcount, ?_, ?_⟩
      · exact all_count_mapSet s id id lid _ (fun p hp => Or.inr (hzero p hp)) (Or.inl rfl)
      · exact (mem_lidAdd s.usedLids lid lid).mpr (Or.inr rfl)
    have hnk1 : ((mapSet s.jobs id { j with listeners := lidAdd j.listeners lid }).map
        Prod.fst).Nodup := by
      rw [keys_mapSet_present s.jobs id _ j hj]
      exact hnk
    refine ⟨rfl, by simpa using htrace, htB, ?_, ?_⟩
    · intro ops hwf hnf
      obtain ⟨j2, δ, hj2, ht2, hlog2, htr2⟩ :=
        tracked_run max ops _ id lid { j with listeners := lidAdd j.listeners lid } hj1 htB hwf hnf
      refine ⟨j2, δ, hj2, by simpa using hlog2, ?_⟩
      rw [htr2]
      show deliveredTo lid (s.trace ++ j.logs.map (fun line => Event.send lid "log" line)) ++ _ = _
      rw [htrace, ← List.map_append]
    · intro o
      obtain ⟨hjf, htrf, hgf⟩ :=
        tracked_finalize _ id lid { j with listeners := lidAdd j.listeners lid } o hj1 htB hnk1
      refine ⟨?_, hgf⟩
      rw [htrf]
      show deliveredTo lid (s.trace ++ j.logs.map (fun line => Event.send lid "log" line)) ++ _ ++ _ = _
      rw [htrace, ← List.map_append]

/-- C3 witness: a subscriber attaching to the plain job replays its two-line
history, receives a later bot log line live, and on finalization receives
the final lines then the terminal status and close events before being
detached. -/
theorem c3_stream_endpoint_witness :
    (streamAttach plainState "j" 9).1 = Resp.streamOpened ∧
    deliveredTo 9 (streamAttach plainState "j" 9).2.trace =
      plainJob.logs.map (fun line => Event.send 9 "log" line) ∧
    (∃ j2 δ, mapGet (run 3 (streamAttach plainState "j" 9).2
        [Op.log (some "j") "info" "t1" "live line"]).jobs "j" = some j2 ∧
      j2.logs = plainJob.logs ++ δ ∧
      deliveredTo 9 (run 3 (streamAttach plainState "j" 9).2
          [Op.log (some "j") "info" "t1" "live line"]).trace =
        (plainJob.logs ++ δ).map (fun line => Event.send 9 "log" line)) ∧
    (deliveredTo 9 (finalizeJob (streamAttach plainState "j" 9).2 "j" Outcome.resolved).trace =
      (plainJob.logs ++ finalLines Outcome.resolved).map (fun line => Event.send 9 "log" line) ++
        [Event.send 9 "status" "terminated", Event.close 9] ∧
      goneB (finalizeJob (streamAttach plainState "j" 9).2 "j" Outcome.resolved) "j" 9 = true) ∧
    streamAttach plainState "nope" 9 = (Resp.notFound, plainState) := by
  have h := (c3_stream_endpoint 3 plainState "j" 9).2 plainJob (by decide) (by decide)
    (by decide) (by decide) (by decide)
  exact ⟨h.1, h.2.1, h.2.2.2.1 [Op.log (some "j") "info" "t1" "live line"] (by decide) (by decide),
    h.2.2.2.2 Outcome.resolved,
    (c3_stream_endpoint 3 plainState "nope" 9).1 (by decide)⟩

/-- C6: for any well-formed run in which a job with a live subscriber is
finalized once, the subscriber's complete delivery trace is exactly the
lines appended before finalization, then the finalization lines, then the
single terminal status event and the channel close, with nothing delivered
after; and the job's buffer never grows after the terminal status event has
been delivered. -/
theorem c6_terminal_ordering (max : Nat) (s : ServerState) (id : String) (lid : Nat) (j : Job)
    (ops1 : List Op) (o : Outcome) (ops2 : List Op)
    (hj : mapGet s.jobs id = some j) (ht : trackedB s id lid = true)
    (hnk : (s.jobs.map Prod.fst).Nodup)
    (hwf : wfRun max s (ops1 ++ Op.finalize id o :: ops2) = true)
    (hnf : noFinalizeOf id ops1 = true) :
    ∃ jmid δ,
      mapGet (run max s ops1).jobs id = some jmid ∧ jmid.logs = j.logs ++ δ ∧
      (∃ jfin, mapGet (run max s (ops1 ++ Op.finalize id o :: ops2)).jobs id = some jfin ∧
        jfin.logs = jmid.logs ++ finalLines o) ∧
      deliveredTo lid (run max s (ops1 ++ Op.finalize id o :: ops2)).trace =
        deliveredTo lid s.trace ++
          (δ ++ finalLines o).map (fun line => Event.send lid "log" line) ++
          [Event.send lid "status" "terminated", Event.close lid] := by
  obtain ⟨hwf1, hwfr⟩ := wfRun_append_elim max ops1 s (Op.finalize id o :: ops2) hwf
  obtain ⟨hokf, hwf2⟩ := wfRun_cons_elim max (run max s ops1) (Op.finalize id o) ops2 hwfr
  obtain ⟨jmid, δ, hjmid, htmid, hlogs, htr1⟩ := tracked_run max ops1 s id lid j hj ht hwf1 hnf
  have hnkmid := keys_nodup_run max ops1 s hwf1 hnk
  obtain ⟨hjfin0, htr2, hgone⟩ :=
    tracked_finalize (run max s ops1) id lid jmid o hjmid htmid hnkmid
  obtain ⟨jfin, hjfin, hlogfin, _, _, htr3⟩ :=
    gone_run max ops2 (finalizeJob (run max s ops1) id o) id lid _ hjfin0 hgone hwf2
  refine ⟨jmid, δ, hjmid, hlogs, ⟨jfin, ?_, ?_⟩, ?_⟩
  · rw [run_append, run_cons]
    exact hjfin
  · exact hlogfin
  · rw [run_append, run_cons]
    show deliveredTo lid (run max (finalizeJob (run max s ops1) id o) ops2).trace = _
    rw [htr3, htr2, htr1]
    simp [List.map_append, List.append_assoc]

/-- C6 witness: the live subscriber of the live job sees the termination
request line, then the finalization line, then the terminal status and
close, and a subscriber attaching afterwards changes neither its trace nor
the buffer. -/
theorem c6_terminal_ordering_witness :
    ∃ jmid δ,
      mapGet (run 3 liveState [Op.endReq "j"]).jobs "j" = some jmid ∧
      jmid.logs = liveJob.logs ++ δ ∧
      (∃ jfin, mapGet (run 3 liveState
          ([Op.endReq "j"] ++ Op.finalize "j" Outcome.resolved :: [Op.attach "j" 6])).jobs "j" =
          some jfin ∧
        jfin.logs = jmid.logs ++ finalLines Outcome.resolved) ∧
      deliveredTo 5 (run 3 liveState
          ([Op.endReq "j"] ++ Op.finalize "j" Outcome.resolved :: [Op.attach "j" 6])).trace =
        deliveredTo 5 liveState.trace ++
          (δ ++ finalLines Outcome.resolved).map (fun line => Event.send 5 "log" line) ++
          [Event.send 5 "status" "terminated", Event.close 5] :=
  c6_terminal_ordering 3 liveState "j" 5 liveJob [Op.endReq "j"] Outcome.resolved
    [Op.attach "j" 6] (by decide) (by decide) (by decide) (by decide) (by decide)

end JobApplicator
